import Mathlib

/-!
Verification of the Prompt Tower core (`src/providers/PromptTowerProvider.ts`)
against its specification.

The development shallowly embeds the three core components:
the selection tree (`toggleCheck`, `toggleDirectoryChildren`, `toggleAllFiles`,
`getChildren`, `getCheckedFiles`), the debounced token-count scheduler
(`debouncedUpdateTokenCount`, `updateTokenCount`), and the context assembler
(`generateFile` with its block/wrapper template substitution).

External collaborators (filesystem, tokenizer, the size-confirmation dialog)
are modelled as oracle functions bundled in environment structures.  The
single-threaded JavaScript event loop is modelled by letting the environment
increment the shared version counter only at the `await` points of a run
(the `bumps` schedule below); between two awaits a run executes atomically,
exactly as in Node.js.
-/

/-- Filesystem / tokenizer error kinds distinguished by the source
(`err.code === "ENOENT"`, permission errors, the tokenizer's
"is too large" rejection, anything else). -/
inductive FsErr where
  | enoent
  | eaccess
  | tooLarge
  | other
deriving Repr, DecidableEq

/-- Modelled from the spec: the `FileItem` model class (src/models/FileItem.ts is
not part of the provided sources; only its constructor calls
`FileItem(label, collapsibleState, filePath, isChecked)`, its fields
`isChecked`, `filePath`, `label`, `contextValue` and its method
`updateCheckState` are visible in the provider).  A Node has a path (unique
key), a kind (file or directory, shown by the collapsible state), a checked
flag and a display name. -/
structure FileItem where
  label : String
  isDirectory : Bool
  filePath : String
  isChecked : Bool
deriving Repr, DecidableEq

/-- `contextValue` distinguishes folders from files (the provider compares it
with the string literals "file" and "folder"). -/
def FileItem.contextValue (it : FileItem) : String :=
  if it.isDirectory then "folder" else "file"

/-- `updateCheckState` sets the checked flag. -/
def FileItem.updateCheckState (it : FileItem) (b : Bool) : FileItem :=
  { it with isChecked := b }

/-- The provider's `items` map (`Map<string, FileItem>`): an insertion-ordered
association list keyed by path, as a JavaScript `Map` is. -/
abbrev Items := List (String × FileItem)

/-- `Map.get` : the binding of the key (a JavaScript `Map` holds at most one
binding per key; on the association list this is the first one). -/
def mapGet : Items → String → Option FileItem
  | [], _ => none
  | kv :: rest, k => if kv.1 = k then some kv.2 else mapGet rest k

/-- `Map.set` : replace the binding in place if the key is present, else
append (JavaScript `Map.set` keeps insertion order for existing keys and
appends new keys). -/
def mapSet : Items → String → FileItem → Items
  | [], k, v => [(k, v)]
  | kv :: rest, k, v => if kv.1 = k then (k, v) :: rest else kv :: mapSet rest k v

/-- `Map.delete` : remove the binding of the key. -/
def mapDelete : Items → String → Items
  | [], _ => []
  | kv :: rest, k => if kv.1 = k then rest else kv :: mapDelete rest k

/-- One directory entry as returned by `fs.promises.readdir(..., withFileTypes)`. -/
structure DirEntry where
  name : String
  isDirectory : Bool
deriving Repr, DecidableEq

/-- The external collaborators of the scheduler and assembler.
`existsAtScan` is `fs.existsSync` as observed while `getCheckedFiles`
builds the checked list; `existsAtRead` is the re-check done inside the
token-count loop just before reading (the source comments that
`getCheckedFiles` might race, so the two observations may differ).
`readFile` is `fs.promises.readFile`, `encodeLen` is
`encode(content).length` of the gpt tokenizer (which may reject oversized
input), `readdir` and `isDir` serve `getChildren`. -/
structure Env where
  existsAtScan : String → Bool
  existsAtRead : String → Bool
  isDir : String → Bool
  readdir : String → List DirEntry
  readFile : String → Except FsErr String
  encodeLen : String → Except FsErr Nat

/-- The payload of `notifyTokenUpdate` (`TokenUpdatePayload`): the published
aggregate count together with the in-progress flag. -/
structure Payload where
  count : Nat
  isCounting : Bool
deriving Repr, DecidableEq

/-- The provider state touched by token counting: the items map,
`totalTokenCount`, `isCountingTokens` and the version counter
`currentTokenCalculationVersion`. -/
structure Provider where
  items : Items
  totalTokenCount : Nat
  isCountingTokens : Bool
  version : Nat
deriving Repr, DecidableEq

/-- `getCheckedFiles()` : paths of checked file items that exist on disk at
call time, in map iteration order. -/
def getCheckedFiles (env : Env) (items : Items) : List String :=
  ((items.map (·.2)).filter
    (fun it => it.isChecked && it.contextValue == "file" && env.existsAtScan it.filePath)).map
    (·.filePath)

/-- State threaded through the per-file loop of `updateTokenCount`:
the items map (mutated by the in-loop pruning), `runningTokenCount`,
`filesProcessed`, the live value of `currentTokenCalculationVersion`, the
remaining schedule of environment version increments (one entry consumed at
every `await`), and the list of files actually read (I/O instrumentation). -/
structure LoopState where
  items : Items
  total : Nat
  fp : Nat
  live : Nat
  bumps : List Nat
  reads : List String
deriving Repr, DecidableEq

/-- The per-file loop of `updateTokenCount` (source lines 126-183).
`v` is the version captured at run start.  Each iteration: the cancellation
check at loop start; the `fs.existsSync` re-check (missing file: prune and
continue, no await); `await readFile` (one bump of the live version);
on `ENOENT` prune and continue, on any other read error continue; tokenize
(errors swallowed, no count); every 50th processed file an `await
setImmediate` yield (one more bump) followed by a second cancellation check.
Returns the final state and whether the run aborted as superseded. -/
def countLoop (env : Env) (v : Nat) : List String → LoopState → LoopState × Bool
  | [], s => (s, false)
  | f :: rest, s =>
    if v ≠ s.live then (s, true)
    else if ¬ env.existsAtRead f then
      countLoop env v rest (LoopState.mk (mapDelete s.items f) s.total s.fp s.live s.bumps s.reads)
    else
      let live1 := s.live + s.bumps.headD 0
      let bumps1 := s.bumps.tail
      let reads1 := s.reads ++ [f]
      match env.readFile f with
      | Except.error FsErr.enoent =>
          countLoop env v rest (LoopState.mk (mapDelete s.items f) s.total s.fp live1 bumps1 reads1)
      | Except.error _ =>
          countLoop env v rest (LoopState.mk s.items s.total s.fp live1 bumps1 reads1)
      | Except.ok content =>
          match env.encodeLen content with
          | Except.error _ =>
              countLoop env v rest (LoopState.mk s.items s.total s.fp live1 bumps1 reads1)
          | Except.ok n =>
              let total1 := s.total + n
              let fp1 := s.fp + 1
              if fp1 % 50 == 0 then
                let live2 := live1 + bumps1.headD 0
                let bumps2 := bumps1.tail
                if v ≠ live2 then
                  (LoopState.mk s.items total1 fp1 live2 bumps2 reads1, true)
                else
                  countLoop env v rest (LoopState.mk s.items total1 fp1 live2 bumps2 reads1)
              else
                countLoop env v rest (LoopState.mk s.items total1 fp1 live1 bumps1 reads1)

/-- The observable outcome of one `updateTokenCount` run: the provider state
it leaves behind, the payloads it published (in order), and the files it
read. -/
structure RunOut where
  p : Provider
  events : List Payload
  reads : List String
deriving Repr, DecidableEq

/-- `updateTokenCount` (source lines 94-217).  Captures the version, takes the
checked list; an empty list resets the count to 0 and publishes immediately
(no awaits can have happened, so the version check passes).  Otherwise it
publishes the previous count with `isCounting` true, runs the loop, and -
only if never superseded - stores the running total and publishes it with
`isCounting` false from the `finally` block.  A superseded run returns
without publishing: its `finally` block re-reads the live version, which no
longer matches.  The provider's version field ends at the live value (the
bumps are the environment's own increments of the shared counter). -/
def updateTokenCount (env : Env) (bumps : List Nat) (p : Provider) : RunOut :=
  let v := p.version
  let checked := getCheckedFiles env p.items
  if checked.isEmpty then
    { p := { p with totalTokenCount := 0, isCountingTokens := false },
      events := [{ count := 0, isCounting := false }], reads := [] }
  else
    let ev0 : Payload := { count := p.totalTokenCount, isCounting := true }
    let r := countLoop env v checked
      { items := p.items, total := 0, fp := 0, live := p.version, bumps := bumps, reads := [] }
    let s := r.1
    if r.2 then
      { p := { items := s.items, totalTokenCount := p.totalTokenCount,
               isCountingTokens := true, version := s.live },
        events := [ev0], reads := s.reads }
    else if v ≠ s.live then
      { p := { items := s.items, totalTokenCount := p.totalTokenCount,
               isCountingTokens := true, version := s.live },
        events := [ev0], reads := s.reads }
    else
      { p := { items := s.items, totalTokenCount := s.total,
               isCountingTokens := false, version := s.live },
        events := [ev0, { count := s.total, isCounting := false }], reads := s.reads }

/-- What one checked file contributes to the running total: its token count
when the existence re-check, the read and the tokenizer all succeed, and
nothing otherwise. -/
def contribution (env : Env) (f : String) : Nat :=
  if env.existsAtRead f then
    match env.readFile f with
    | Except.ok c =>
        match env.encodeLen c with
        | Except.ok n => n
        | Except.error _ => 0
    | Except.error _ => 0
  else 0

/-- Whether the loop prunes a checked file from the items map: it is missing
at the pre-read existence check, or the read fails with ENOENT. -/
def prunesFile (env : Env) (f : String) : Bool :=
  ¬ env.existsAtRead f ||
    (match env.readFile f with
     | Except.error FsErr.enoent => true
     | _ => false)

/-- Whether a checked file is fully processed (exists, reads, tokenizes). -/
def fileSucceeds (env : Env) (f : String) : Bool :=
  env.existsAtRead f &&
    (match env.readFile f with
     | Except.ok c =>
         (match env.encodeLen c with
          | Except.ok _ => true
          | Except.error _ => false)
     | Except.error _ => false)

/-- The items map after the loop has pruned the vanished files of a run. -/
def pruneItems (env : Env) (items : Items) (files : List String) : Items :=
  files.foldl (fun m f => if prunesFile env f then mapDelete m f else m) items

/-- The total an uncontested run over the current items map publishes. -/
def runTotal (env : Env) (items : Items) : Nat :=
  ((getCheckedFiles env items).map (contribution env)).sum

/-- The debounce state of `debouncedUpdateTokenCount`: the shared version
counter, the single tracked pending timer (`debounceTimeout`), a supply of
timer identities, and the log of timers that were cancelled via
`clearTimeout`. -/
structure Sched where
  version : Nat
  timer : Option Nat
  nextId : Nat
  cancelled : List Nat
deriving Repr, DecidableEq

/-- `debouncedUpdateTokenCount` (source lines 68-81): clear any pending
timer, synchronously increment `currentTokenCalculationVersion`, arm a
fresh timer. -/
def debouncedUpdate (s : Sched) : Sched :=
  { version := s.version + 1,
    timer := some s.nextId,
    nextId := s.nextId + 1,
    cancelled :=
      match s.timer with
      | some t => s.cancelled ++ [t]
      | none => s.cancelled }

/-- A burst of `n` calls to `debouncedUpdateTokenCount`. -/
def burst : Nat → Sched → Sched
  | 0, s => s
  | n + 1, s => burst n (debouncedUpdate s)

/-- The timer ids a burst cancels, starting from a state whose pending timer
is `t` and whose next fresh id is `k`. -/
def cancelledIds : Nat → Nat → Nat → List Nat
  | _, _, 0 => []
  | t, k, n + 1 => t :: cancelledIds k (k + 1) n

/-- `path.join(dirPath, entry.name)` (posix form, as the provider builds keys). -/
def pathJoin (a b : String) : String := a ++ "/" ++ b

/-- `matchesPattern` (source lines 736-752): exact name, trailing-slash
directory form, and the leading `*.` wildcard. -/
def matchesPattern (fileName pattern : String) : Bool :=
  if pattern == "" then false
  else if fileName == pattern then true
  else if pattern.endsWith "/" && fileName == pattern.dropRight 1 then true
  else if pattern.startsWith "*." then fileName.endsWith (pattern.drop 1)
  else false

/-- Whether an entry name is skipped by the exclusion patterns. -/
def excludedName (excl : List String) (name : String) : Bool :=
  excl.any (fun pattern => matchesPattern name pattern)

/-- The size-gate environment: the configured `maxFileSizeWarningKB`
threshold and the user's per-file answer to the large-file warning dialog. -/
structure GateEnv where
  threshold : Nat
  accepts : String → Bool

/-- `checkFileSize` (source lines 441-470) viewed as a predicate: it throws
the "User cancelled large file selection" error exactly when the file's
size exceeds the threshold and the user does not pick "Select Anyway"
(stat errors are silently ignored and never cancel). -/
def gateCancels (g : GateEnv) (sizeKB : Nat) (filePath : String) : Bool :=
  decide (g.threshold < sizeKB) && ¬ g.accepts filePath

mutual
/-- The filesystem subtree a cascading toggle walks, as `fs.promises.readdir`
would reveal it: a file with its stat size in KB, or a directory with its
entries. -/
inductive FsTree where
  | file (name : String) (sizeKB : Nat)
  | dir (name : String) (children : FsForest)
deriving Repr
/-- A directory listing. -/
inductive FsForest where
  | nil
  | cons (head : FsTree) (tail : FsForest)
deriving Repr
end

mutual
/-- `toggleDirectoryChildren` (source lines 473-576) on a single directory
entry: excluded names are skipped; a file being checked on consults the
size gate, a declined file is forced unchecked while the walk continues;
the entry's item is found in the map and updated, or created with the
target state; directories recurse, bubbling up the cancellation flag. -/
def cascadeTree (g : GateEnv) (excl : List String) (checked : Bool) (dirPath : String) :
    FsTree → Items → Items × Bool
  | FsTree.file nm sz, items =>
      if excludedName excl nm then (items, false)
      else
        let filePath := pathJoin dirPath nm
        let cancelled := checked && gateCancels g sz filePath
        let target := if cancelled then false else checked
        let items1 :=
          match mapGet items filePath with
          | none => mapSet items filePath (FileItem.mk nm false filePath target)
          | some it => mapSet items filePath (it.updateCheckState target)
        (items1, cancelled)
  | FsTree.dir nm kids, items =>
      if excludedName excl nm then (items, false)
      else
        let filePath := pathJoin dirPath nm
        let items1 :=
          match mapGet items filePath with
          | none => mapSet items filePath (FileItem.mk nm true filePath checked)
          | some it => mapSet items filePath (it.updateCheckState checked)
        let r := cascadeForest g excl checked filePath kids items1
        (r.1, r.2)
/-- `toggleDirectoryChildren` over a directory listing, accumulating the
`userCancelledSomewhere` flag. -/
def cascadeForest (g : GateEnv) (excl : List String) (checked : Bool) (dirPath : String) :
    FsForest → Items → Items × Bool
  | FsForest.nil, items => (items, false)
  | FsForest.cons e rest, items =>
      let r1 := cascadeTree g excl checked dirPath e items
      let r2 := cascadeForest g excl checked dirPath rest r1.1
      (r2.1, r1.2 || r2.2)
end

/-- The outcome of `toggleCheck`: the updated items map and whether a
debounced recompute was triggered. -/
structure ToggleOut where
  items : Items
  recompute : Bool
deriving Repr, DecidableEq

/-- `toggleCheck` (source lines 391-438).  `sizeKB` is the stat size of the
item itself (consulted only when checking on a file); `subtree` is what
`readdir` reveals under the item when it is a folder.  A declined file
toggle is forced back to unchecked and flagged; the item state is updated,
a folder cascades to its children; a recompute is triggered when the state
actually changed or any cascade member was declined. -/
def toggleCheck (g : GateEnv) (excl : List String) (sizeKB : Nat) (subtree : FsForest)
    (item : FileItem) (items : Items) : ToggleOut :=
  let originalState := item.isChecked
  let wantOn := ¬ item.isChecked
  let userCancelled := wantOn && item.contextValue == "file" && gateCancels g sizeKB item.filePath
  let newState := if userCancelled then false else wantOn
  if newState ≠ originalState ∨ userCancelled = true then
    let item1 := item.updateCheckState newState
    let r :=
      if item.contextValue == "folder" then
        cascadeForest g excl newState item.filePath subtree items
      else (items, false)
    let childrenCancelled := r.2
    let items2 := mapSet r.1 item.filePath item1
    ToggleOut.mk items2 (decide (newState ≠ originalState) || childrenCancelled)
  else
    ToggleOut.mk items false

/-- The outcome of `toggleAllFiles`: the provider state left behind, the
payloads published synchronously, and whether a debounced recompute timer
was armed. -/
structure ToggleAllOut where
  p : Provider
  events : List Payload
  timerArmed : Bool
deriving Repr, DecidableEq

/-- `toggleAllFiles` (source lines 351-388): flip every item to the negation
of "all checked", bypassing the size gate.  Toggling off immediately
increments the version (invalidating any in-flight run), zeroes the count
and publishes, with no debounce; toggling on arms the debounced update
(which also increments the version). -/
def toggleAllFiles (p : Provider) : ToggleAllOut :=
  let allChecked := p.items.all (fun kv => kv.2.isChecked)
  let newState := ¬ allChecked
  let items1 := p.items.map (fun kv => (kv.1, kv.2.updateCheckState newState))
  if ¬ newState then
    ToggleAllOut.mk
      (Provider.mk items1 0 false (p.version + 1))
      [Payload.mk 0 false] false
  else
    ToggleAllOut.mk
      (Provider.mk items1 p.totalTokenCount p.isCountingTokens (p.version + 1))
      [] true

/-- The default checked state of a newly discovered entry:
`element?.isChecked ?? false` - the listed parent's state when there is a
listed parent, false for root entries. -/
def inheritDefault (element : Option FileItem) : Bool :=
  match element with
  | some parent => parent.isChecked
  | none => false

/-- The loop body of `getChildren` (source lines 245-302): skip excluded
entries; a newly discovered path gets an item inheriting the listed
parent's checked state when that parent is checked (false for root entries
and children of unchecked parents); a known path gets a fresh item rebuilt
from the directory entry that keeps only the stored checked state. -/
def getChildrenLoop (excl : List String) (element : Option FileItem) (dirPath : String) :
    List DirEntry → Items → Items × List FileItem
  | [], items => (items, [])
  | e :: rest, items =>
    if excludedName excl e.name then getChildrenLoop excl element dirPath rest items
    else
      let filePath := pathJoin dirPath e.name
      match mapGet items filePath with
      | none =>
          let it := FileItem.mk e.name e.isDirectory filePath (inheritDefault element)
          let r := getChildrenLoop excl element dirPath rest (mapSet items filePath it)
          (r.1, it :: r.2)
      | some old =>
          let it := FileItem.mk e.name e.isDirectory filePath old.isChecked
          let r := getChildrenLoop excl element dirPath rest (mapSet items filePath it)
          (r.1, it :: r.2)

/-- The comparator of the children sort: folders before files, then by
label (localeCompare modelled as string order). -/
def childLE (a b : FileItem) : Bool :=
  if a.isDirectory ≠ b.isDirectory then a.isDirectory
  else decide (a.label ≤ b.label)

/-- Insertion step of the (stable) children sort. -/
def childInsert (a : FileItem) : List FileItem → List FileItem
  | [] => [a]
  | b :: rest => if childLE a b then a :: b :: rest else b :: childInsert a rest

/-- The children sort of `getChildren` (source lines 305-316). -/
def childSort : List FileItem → List FileItem
  | [] => []
  | a :: rest => childInsert a (childSort rest)

/-- `getChildren` (source lines 226-340): resolve the directory (the element
or the workspace root), bail out - deleting a vanished element - when the
path is missing or not a directory, otherwise rebuild an item per listed
entry (checked state carried forward by path) and return them sorted. -/
def getChildren (env : Env) (excl : List String) (workspaceRoot : String)
    (element : Option FileItem) (items : Items) : Items × List FileItem :=
  let dirPath :=
    match element with
    | some e => e.filePath
    | none => workspaceRoot
  if ¬ (env.existsAtScan dirPath && env.isDir dirPath) then
    (match element with
     | some e => mapDelete items e.filePath
     | none => items, [])
  else
    let r := getChildrenLoop excl element dirPath (env.readdir dirPath) items
    (r.1, childSort r.2)

/-- One node of the filesystem walk a cascade performs: its path, entry name,
kind, and stat size. -/
structure WEntry where
  path : String
  name : String
  isDir : Bool
  sizeKB : Nat
deriving Repr, DecidableEq

mutual
/-- The non-excluded nodes a cascade visits under one entry, in visit order. -/
def walkTree (excl : List String) (dirPath : String) : FsTree → List WEntry
  | FsTree.file nm sz =>
      if excludedName excl nm then []
      else [WEntry.mk (pathJoin dirPath nm) nm false sz]
  | FsTree.dir nm kids =>
      if excludedName excl nm then []
      else
        WEntry.mk (pathJoin dirPath nm) nm true 0 ::
          walkForest excl (pathJoin dirPath nm) kids
/-- The non-excluded nodes a cascade visits in a directory listing. -/
def walkForest (excl : List String) (dirPath : String) : FsForest → List WEntry
  | FsForest.nil => []
  | FsForest.cons e rest => walkTree excl dirPath e ++ walkForest excl dirPath rest
end

/-- The `$`-escape expansion JavaScript applies to the replacement string of
`String.prototype.replace`: `$$` yields a dollar sign, `$&` the matched
text, a dollar followed by a backtick the part of the subject before the
match, `$'` the part after it; any other dollar sequence is kept literally
(the regexes of the source have no capture groups, so `$1` ... stay
literal). -/
def substDollar (matched pre post : List Char) : List Char → List Char
  | [] => []
  | [c] => [c]
  | c1 :: c2 :: rest =>
      if c1 = '$' then
        if c2 = '$' then '$' :: substDollar matched pre post rest
        else if c2 = '&' then matched ++ substDollar matched pre post rest
        else if c2 = Char.ofNat 96 then pre ++ substDollar matched pre post rest
        else if c2 = Char.ofNat 39 then post ++ substDollar matched pre post rest
        else c1 :: substDollar matched pre post (c2 :: rest)
      else c1 :: substDollar matched pre post (c2 :: rest)

/-- Scan of the subject for `subject.replace(/pat/g, rep)` with a literal
pattern: leftmost non-overlapping matches, each replaced by the
`$`-expanded replacement.  `i` is the current position; the fuel argument
only bounds the recursion and is in surplus whenever it exceeds the number
of remaining subject characters. -/
def replFrom (subj pat rep : List Char) : Nat → Nat → List Char
  | 0, _ => []
  | fuel + 1, i =>
      match subj.drop i with
      | [] => []
      | c :: _ =>
          if pat.isPrefixOf (subj.drop i) then
            substDollar pat (subj.take i) (subj.drop (i + pat.length)) rep ++
              replFrom subj pat rep fuel (i + pat.length)
          else c :: replFrom subj pat rep fuel (i + 1)

/-- `subject.replace(/pat/g, rep)` for a literal pattern `pat`, as the
source uses it for every placeholder (all its patterns are non-empty
literal strings; the empty-pattern case never occurs and is returned
unchanged). -/
def jsReplaceAll (s pat rep : String) : String :=
  if pat.data.isEmpty then s
  else String.mk (replFrom s.data pat.data rep.data (s.data.length + 1) 0)

/-- `path.basename`: the part after the last slash (the provider only passes
slash-joined file paths). -/
def pathBasename (p : String) : String :=
  String.mk (p.data.foldl (fun acc c => if c = '/' then [] else acc ++ [c]) [])

/-- Index of the last dot of a name, if any. -/
def lastDotIndex (b : List Char) : Option Nat :=
  ((List.range b.length).filter (fun j => b.get? j == some '.')).getLast?

/-- `path.extname`: the suffix of the basename from its last dot, empty when
there is no dot or the only dot leads the name. -/
def pathExtname (p : String) : String :=
  let b := (pathBasename p).data
  match lastDotIndex b with
  | some j => if j = 0 then "" else String.mk (b.drop j)
  | none => ""

/-- `path.basename(p, ext)`: the basename with the suffix `ext` stripped
when it ends with it (and is not the whole name). -/
def pathBasenameNoExt (p ext : String) : String :=
  let b := pathBasename p
  if ext ≠ "" ∧ b ≠ ext ∧ ext.data.isSuffixOf b.data then
    String.mk (b.data.take (b.data.length - ext.data.length))
  else b

/-- `path.relative(workspaceRoot, p)` for the paths the provider passes:
every checked file lives under the workspace root, so the root prefix and
its separator are stripped (other inputs are returned unchanged). -/
def pathRelative (root p : String) : String :=
  if (root ++ "/").data.isPrefixOf p.data then String.mk (p.data.drop (root.length + 1))
  else if p = root then ""
  else p

/-- The per-file block rendering of `generateFile` (source lines 780-818):
the block template with, in this fixed order, `fileNameWithExtension`,
`rawFilePath` (root-relative, backslashes normalized to slashes, leading
slash), `fileName`, `fileExtension`, `fullPath` and - last - `fileContent`
substituted via the global-replace calls of the source. -/
def renderBlock (workspaceRoot blockTemplate fullFilePath fileContent : String) : String :=
  let relativePath := pathRelative workspaceRoot fullFilePath
  let fileNameWithExtension := pathBasename fullFilePath
  let fileExtension := pathExtname fullFilePath
  let fileName := pathBasenameNoExt fullFilePath fileExtension
  let sourcePath := "/" ++ jsReplaceAll relativePath "\\" "/"
  let b1 := jsReplaceAll blockTemplate "{fileNameWithExtension}" fileNameWithExtension
  let b2 := jsReplaceAll b1 "{rawFilePath}" sourcePath
  let b3 := jsReplaceAll b2 "{fileName}" fileName
  let b4 := jsReplaceAll b3 "{fileExtension}" fileExtension
  let b5 := jsReplaceAll b4 "{fullPath}" fullFilePath
  jsReplaceAll b5 "{fileContent}" fileContent

/-- `contents.join(blockSeparator)`. -/
def joinBlocks (sep : String) : List String → String
  | [] => ""
  | [b] => b
  | b :: rest => b ++ sep ++ joinBlocks sep rest

/-- The wrapper application of `generateFile` (source lines 827-849):
substitute `blocks`, `timestamp`, `fileCount`, `workspaceRoot` and
`outputFileName` into the wrapper template when one is configured, else
return the joined blocks verbatim. -/
def applyWrapper (wrapperTemplate : Option String) (joined timestamp : String)
    (fileCount : Nat) (workspaceRoot outputFileName : String) : String :=
  match wrapperTemplate with
  | none => joined
  | some w =>
      let w1 := jsReplaceAll w "{blocks}" joined
      let w2 := jsReplaceAll w1 "{timestamp}" timestamp
      let w3 := jsReplaceAll w2 "{fileCount}" (toString fileCount)
      let w4 := jsReplaceAll w3 "{workspaceRoot}" workspaceRoot
      jsReplaceAll w4 "{outputFileName}" outputFileName

/-- Reading every checked file for the render (the `Promise.all` over
`fileBlockPromises`): the first failing read rejects the whole batch. -/
def readAllFiles (env : Env) : List String → Except (String × FsErr) (List String)
  | [] => Except.ok []
  | f :: rest =>
      match env.readFile f with
      | Except.error e => Except.error (f, e)
      | Except.ok c =>
          match readAllFiles env rest with
          | Except.error e => Except.error e
          | Except.ok cs => Except.ok (c :: cs)

/-- The observable outcome of `generateFile`: nothing selected (warning
only), the output file written with its final content, or an error shown
with no file written. -/
inductive GenOutcome where
  | noFiles
  | written (outputPath : String) (content : String)
  | genError (file : String) (e : FsErr)
deriving Repr, DecidableEq

/-- `generateFile` (source lines 754-865): take the checked list, bail out
when it is empty; read and render every file (any read failure aborts into
the catch block, which only shows an error - the write never happens);
join the blocks, apply the wrapper, and only then write the single output
file. -/
def generateFile (env : Env) (workspaceRoot blockTemplate blockSeparator : String)
    (wrapperTemplate : Option String) (outputExtension fileNameRaw timestamp : String)
    (items : Items) : GenOutcome :=
  let checkedFiles := getCheckedFiles env items
  if checkedFiles.isEmpty then GenOutcome.noFiles
  else
    let outputFileNameWithExtension := fileNameRaw ++ "." ++ outputExtension
    let outputPath := pathJoin workspaceRoot outputFileNameWithExtension
    match readAllFiles env checkedFiles with
    | Except.error fe => GenOutcome.genError fe.1 fe.2
    | Except.ok contents =>
        let blocks := (checkedFiles.zip contents).map
          (fun fc => renderBlock workspaceRoot blockTemplate fc.1 fc.2)
        let joined := joinBlocks blockSeparator blocks
        let finalOutput := applyWrapper wrapperTemplate joined timestamp
          checkedFiles.length workspaceRoot outputFileNameWithExtension
        GenOutcome.written outputPath finalOutput


/-! ### Concrete instances used by the witnesses -/

/-- A stable two-file environment (C2 witness). -/
def envC2 : Env :=
  Env.mk (fun _ => true) (fun _ => true) (fun _ => false) (fun _ => [])
    (fun f => if f = "a" then Except.ok "xy" else Except.ok "z")
    (fun c => Except.ok c.length)

/-- A provider with two checked files (C2 witness). -/
def provC2 : Provider :=
  Provider.mk [("a", FileItem.mk "a" false "a" true), ("b", FileItem.mk "b" false "b" true)]
    5 false 0

/-- An environment with one healthy file and one of each per-file failure:
vanished before the loop, ENOENT on read, permission error on read,
tokenizer rejection (C7 witness). -/
def envC7 : Env :=
  Env.mk (fun _ => true) (fun f => f != "b") (fun _ => false) (fun _ => [])
    (fun f =>
      if f = "a" then Except.ok "xy"
      else if f = "c" then Except.error FsErr.enoent
      else if f = "d" then Except.error FsErr.eaccess
      else if f = "e" then Except.ok "L"
      else Except.ok "")
    (fun c => if c = "L" then Except.error FsErr.tooLarge else Except.ok c.length)

/-- A provider with the five files of `envC7` checked (C7 witness). -/
def provC7 : Provider :=
  Provider.mk
    [("a", FileItem.mk "a" false "a" true), ("b", FileItem.mk "b" false "b" true),
     ("c", FileItem.mk "c" false "c" true), ("d", FileItem.mk "d" false "d" true),
     ("e", FileItem.mk "e" false "e" true)] 9 false 2

/-- A provider with every item checked (C8 witness). -/
def provC8 : Provider :=
  Provider.mk [("a", FileItem.mk "a" false "a" true)] 4 false 1

/-- A trivial stable environment (C8 witness). -/
def envC8 : Env :=
  Env.mk (fun _ => true) (fun _ => true) (fun _ => false) (fun _ => [])
    (fun _ => Except.ok "x") (fun c => Except.ok c.length)

/-- A stable two-file environment (C1 witness). -/
def envC1 : Env :=
  Env.mk (fun _ => true) (fun _ => true) (fun _ => false) (fun _ => [])
    (fun f => if f = "a" then Except.ok "xy" else Except.ok "z")
    (fun c => Except.ok c.length)

/-- A provider with two checked files (C1 witness). -/
def provC1 : Provider :=
  Provider.mk [("a", FileItem.mk "a" false "a" true), ("b", FileItem.mk "b" false "b" true)]
    5 false 0

/-- An environment where one checked file is unreadable (C6 witness). -/
def envC6 : Env :=
  Env.mk (fun _ => true) (fun _ => true) (fun _ => false) (fun _ => [])
    (fun f => if f = "bad" then Except.error FsErr.eaccess else Except.ok "x")
    (fun c => Except.ok c.length)

/-- Two checked files, one unreadable (C6 witness). -/
def itemsC6 : Items :=
  [("a", FileItem.mk "a" false "a" true), ("bad", FileItem.mk "bad" false "bad" true)]

/-- An environment whose directory "r/d" lists entries x and y (C10 witness). -/
def envC10 : Env :=
  Env.mk (fun _ => true) (fun _ => true) (fun _ => true)
    (fun d => if d = "r/d" then [DirEntry.mk "x" false, DirEntry.mk "y" false] else [])
    (fun _ => Except.ok "") (fun c => Except.ok c.length)

/-- The checked listed parent of the re-scan (C10 witness). -/
def elemC10 : Option FileItem := some (FileItem.mk "d" true "r/d" true)

/-- A map knowing one child (unchecked) and an unrelated path (C10 witness). -/
def itemsC10 : Items :=
  [("r/d/x", FileItem.mk "x" false "r/d/x" false), ("z", FileItem.mk "z" false "z" true)]

/-- The checked state a cascade member ends with: the cascade's target
state, except that a file the size gate declines while checking on is
forced unchecked. -/
def cascadeTarget (g : GateEnv) (checked : Bool) (w : WEntry) : Bool :=
  if checked && !w.isDir && gateCancels g w.sizeKB w.path then false else checked

/-- Whether a cascade member is declined by the size gate (only files are
gated, and only while checking on). -/
def cascadeDeclined (g : GateEnv) (checked : Bool) (w : WEntry) : Bool :=
  checked && !w.isDir && gateCancels g w.sizeKB w.path

/-- Set every item whose path the cascade walked to the target state,
leaving all other items alone. -/
def setWalked (ps : List String) (target : Bool) (items : Items) : Items :=
  items.map (fun kv =>
    if ps.contains kv.1 then (kv.1, kv.2.updateCheckState target) else kv)

/-- A gate with threshold 500 KB whose user always declines (C4 witness). -/
def gC4 : GateEnv := GateEnv.mk 500 (fun _ => false)

/-- A directory listing with one oversized file, one small file and a
subdirectory holding another small file (C4 witness). -/
def treeC4 : FsForest :=
  FsForest.cons (FsTree.file "big.bin" 1000)
    (FsForest.cons (FsTree.file "small.txt" 1)
      (FsForest.cons
        (FsTree.dir "sub" (FsForest.cons (FsTree.file "inner.txt" 2) FsForest.nil))
        FsForest.nil))

/-- The unchecked directory item being toggled on (C4 witness). -/
def itemC4 : FileItem := FileItem.mk "d" true "r/d" false

/-- The map before the toggle (C4 witness). -/
def itemsC4 : Items := [("r/d", itemC4)]

/-- The walked entry of the oversized, declined file (C4 witness). -/
def dC4 : WEntry := WEntry.mk "r/d/big.bin" "big.bin" false 1000

/-- A size gate that always accepts (C9). -/
def gC9 : GateEnv := GateEnv.mk 1000000 (fun _ => true)

/-- A stable environment where every file reads as "hello", tokenized to 5
(C9 counterexample). -/
def envC9 : Env :=
  Env.mk (fun _ => true) (fun _ => true) (fun _ => false) (fun _ => [])
    (fun _ => Except.ok "hello") (fun c => Except.ok c.length)

/-- A directory listing with a single small file (C9 counterexample). -/
def treeC9 : FsForest :=
  FsForest.cons (FsTree.file "a.txt" 1) FsForest.nil

/-- The unchecked directory being double-toggled (C9 counterexample). -/
def dirC9 : FileItem := FileItem.mk "d" true "r/d" false

/-- The map before the double toggle: the unchecked directory together with
its already-checked child - a mixed state (C9 counterexample). -/
def itemsC9 : Items :=
  [("r/d", dirC9), ("r/d/a.txt", FileItem.mk "a.txt" false "r/d/a.txt" true)]

/-- The checked file being double-toggled (C9 witness). -/
def fileC9 : FileItem := FileItem.mk "a" false "a" true

/-- A one-file map (C9 witness). -/
def itemsC9w : Items := [("a", fileC9)]

/-! ## Map lemmas -/

theorem mapGet_set (m : Items) (k j : String) (v : FileItem) :
    mapGet (mapSet m k v) j = if j = k then some v else mapGet m j := by
  induction m with
  | nil =>
    by_cases hj : j = k
    · simp [mapGet, mapSet, hj]
    · simp [mapGet, mapSet, hj, Ne.symm hj]
  | cons kv rest ih =>
    by_cases hk : kv.1 = k <;> by_cases hj : kv.1 = j <;>
      by_cases hjk : j = k <;>
      simp_all [mapGet, mapSet]

theorem mapGet_none_not_mem (m : Items) (j : String)
    (h : ∀ x : FileItem, (j, x) ∉ m) : mapGet m j = none := by
  induction m with
  | nil => rfl
  | cons kv rest ih =>
    simp only [List.mem_cons, not_or] at h
    have hj : ¬ kv.1 = j := by
      intro hh
      exact (h kv.2).1 (by cases kv; simp_all)
    simp only [mapGet, if_neg hj]
    exact ih (fun x => (h x).2)

theorem mapGet_delete_nodup (m : Items) (k j : String)
    (hnd : (m.map Prod.fst).Nodup) :
    mapGet (mapDelete m k) j = if j = k then none else mapGet m j := by
  induction m with
  | nil => simp [mapGet, mapDelete, ite_self]
  | cons kv rest ih =>
    simp only [List.map_cons, List.nodup_cons, List.mem_map] at hnd
    by_cases hk : kv.1 = k
    · by_cases hjk : j = k
      · subst hjk
        simp only [mapDelete, if_pos hk, if_pos rfl]
        exact mapGet_none_not_mem rest j
          (fun x hx => hnd.1 ⟨(j, x), hx, by simp [hk]⟩)
      · have hkj : ¬ kv.1 = j := fun h => hjk (h.symm.trans hk)
        simp [mapDelete, mapGet, if_pos hk, hjk, hkj]
    · by_cases hj : kv.1 = j <;> by_cases hjk : j = k <;>
        simp_all [mapGet, mapDelete]

theorem mapGet_mem (m : Items) (j : String) (w : FileItem) (h : mapGet m j = some w) :
    (j, w) ∈ m := by
  induction m with
  | nil => simp [mapGet] at h
  | cons kv rest ih =>
    by_cases hj : kv.1 = j <;> simp_all [mapGet]
    left
    cases kv
    simp_all

theorem mapSet_keys (m : Items) (k : String) (v : FileItem) :
    (mapSet m k v).map Prod.fst =
      if (mapGet m k).isSome then m.map Prod.fst else m.map Prod.fst ++ [k] := by
  induction m with
  | nil => simp [mapGet, mapSet]
  | cons kv rest ih =>
    by_cases hk : kv.1 = k <;> simp_all [mapGet, mapSet] <;> split <;> simp

theorem mapSet_self (m : Items) (k : String) (v : FileItem)
    (hnd : (m.map Prod.fst).Nodup) (h : mapGet m k = some v) :
    mapSet m k v = m := by
  induction m with
  | nil => simp [mapGet] at h
  | cons kv rest ih =>
    simp only [List.map_cons, List.nodup_cons, List.mem_map] at hnd
    by_cases hk : kv.1 = k
    · simp only [mapGet, if_pos hk] at h
      cases kv
      simp_all [mapSet]
    · simp_all [mapGet, mapSet]

theorem mapGet_none_iff (m : Items) (k : String) :
    mapGet m k = none ↔ k ∉ m.map Prod.fst := by
  induction m with
  | nil => simp [mapGet]
  | cons kv rest ih =>
    by_cases hk : kv.1 = k <;> simp_all [mapGet, Ne.symm, eq_comm]

theorem mapDelete_keys_sublist (m : Items) (k : String) :
    List.Sublist ((mapDelete m k).map Prod.fst) (m.map Prod.fst) := by
  induction m with
  | nil => simp [mapDelete]
  | cons kv rest ih =>
    by_cases hk : kv.1 = k
    · simp only [mapDelete, if_pos hk, List.map_cons]
      exact (List.sublist_cons_self _ _)
    · simp only [mapDelete, if_neg hk, List.map_cons]
      exact ih.cons₂ _

theorem mapDelete_nodup (m : Items) (k : String) (hnd : (m.map Prod.fst).Nodup) :
    ((mapDelete m k).map Prod.fst).Nodup :=
  hnd.sublist (mapDelete_keys_sublist m k)

theorem mapSet_nodup (m : Items) (k : String) (v : FileItem)
    (hnd : (m.map Prod.fst).Nodup) : ((mapSet m k v).map Prod.fst).Nodup := by
  rw [mapSet_keys]
  rcases h : mapGet m k with _ | w
  · simp only [h, Option.isSome_none, Bool.false_eq_true, if_false]
    have := (mapGet_none_iff m k).mp h
    simp [List.nodup_append, hnd, this]
  · simp [hnd]

/-! ## Scheduler lemmas -/

theorem countLoop_uncontested (env : Env) (v : Nat) (files : List String) :
    ∀ s : LoopState, s.live = v → s.bumps = [] →
    countLoop env v files s =
      (LoopState.mk (pruneItems env s.items files)
        (s.total + (files.map (contribution env)).sum)
        (s.fp + files.countP (fun f => fileSucceeds env f))
        v [] (s.reads ++ files.filter (fun f => env.existsAtRead f)), false) := by
  induction files with
  | nil =>
    intro s h1 h2
    cases s
    simp_all [countLoop, pruneItems]
  | cons f rest ih =>
    intro s h1 h2
    simp only [countLoop]
    rw [if_neg (show ¬ v ≠ s.live from fun h => h h1.symm)]
    by_cases hex : env.existsAtRead f
    · rw [if_neg (by simp [hex])]
      simp only [h2, List.headD_nil, List.tail_nil, Nat.add_zero]
      rcases hr : env.readFile f with e | c
      · cases e <;>
          simp [ih, h1, pruneItems, prunesFile, contribution, fileSucceeds, hex, hr,
            List.countP_cons, List.filter_cons]
      · rcases ht : env.encodeLen c with e2 | n
        · simp [ih, h1, pruneItems, prunesFile, contribution, fileSucceeds, hex, hr, ht,
            List.countP_cons, List.filter_cons]
        · by_cases hfp : (s.fp + 1) % 50 == 0 <;>
            simp [ih, h1, hfp, pruneItems, prunesFile, contribution, fileSucceeds, hex, hr, ht,
              List.countP_cons, List.filter_cons, Nat.add_assoc] <;>
            omega
    · rw [if_pos (by simp [hex])]
      simp [ih, h1, h2, pruneItems, prunesFile, contribution, fileSucceeds, hex,
        List.countP_cons, List.filter_cons]

theorem updateTokenCount_empty (env : Env) (bumps : List Nat) (p : Provider)
    (h : getCheckedFiles env p.items = []) :
    updateTokenCount env bumps p = RunOut.mk
      (Provider.mk p.items 0 false p.version)
      [Payload.mk 0 false] [] := by
  simp [updateTokenCount, h]

theorem updateTokenCount_uncontested (env : Env) (p : Provider)
    (hne : getCheckedFiles env p.items ≠ []) :
    updateTokenCount env [] p = RunOut.mk
      (Provider.mk (pruneItems env p.items (getCheckedFiles env p.items))
        (runTotal env p.items) false p.version)
      [Payload.mk p.totalTokenCount true, Payload.mk (runTotal env p.items) false]
      ((getCheckedFiles env p.items).filter (fun f => env.existsAtRead f)) := by
  simp only [updateTokenCount]
  rw [if_neg (by simpa [List.isEmpty_iff] using hne)]
  rw [countLoop_uncontested env p.version (getCheckedFiles env p.items) _ rfl rfl]
  simp [runTotal]

theorem countLoop_stale (env : Env) (v : Nat) (files : List String) (s : LoopState)
    (h : ¬ v = s.live) :
    countLoop env v files s = (s, !files.isEmpty) := by
  cases files <;> simp [countLoop, h]

theorem countLoop_first_bump (env : Env) (v b : Nat) (hb : 0 < b) (f0 : String)
    (rest : List String) (s : LoopState) (hex : env.existsAtRead f0 = true)
    (h1 : s.live = v) (hbumps : s.bumps = [b]) (hfp : s.fp = 0) :
    (countLoop env v (f0 :: rest) s).2 = !rest.isEmpty ∧
    (countLoop env v (f0 :: rest) s).1.live = v + b := by
  have hne : ¬ v = v + b := by omega
  simp only [countLoop]
  rw [if_neg (show ¬ v ≠ s.live from fun h => h h1.symm)]
  rw [if_neg (by simp [hex])]
  rcases hr : env.readFile f0 with e | c
  · cases e <;> simp [countLoop_stale, h1, hbumps, hne]
  · rcases ht : env.encodeLen c with e2 | n
    · simp [ht, countLoop_stale, h1, hbumps, hne]
    · simp [ht, hfp, countLoop_stale, h1, hbumps, hne]

theorem updateTokenCount_superseded (env : Env) (p : Provider) (b : Nat) (hb : 0 < b)
    (f0 : String) (rest : List String)
    (hc : getCheckedFiles env p.items = f0 :: rest)
    (hex : env.existsAtRead f0 = true) :
    (updateTokenCount env [b] p).events = [Payload.mk p.totalTokenCount true] ∧
    (updateTokenCount env [b] p).p.version = p.version + b ∧
    (updateTokenCount env [b] p).p.isCountingTokens = true ∧
    (updateTokenCount env [b] p).p.totalTokenCount = p.totalTokenCount := by
  have hb2 : ¬ p.version = p.version + b := by omega
  obtain ⟨hflag, hlive⟩ := countLoop_first_bump env p.version b hb f0 rest
    (LoopState.mk p.items 0 0 p.version [b] []) hex rfl rfl rfl
  simp only [updateTokenCount, hc]
  rw [if_neg (by simp)]
  cases rest <;> simp_all

theorem updateTokenCount_final_filter (env : Env) (p : Provider) :
    (updateTokenCount env [] p).events.filter (fun e => !e.isCounting) =
      [Payload.mk (runTotal env p.items) false] := by
  by_cases h : getCheckedFiles env p.items = []
  · rw [updateTokenCount_empty env [] p h]
    simp [runTotal, h]
  · rw [updateTokenCount_uncontested env p h]
    simp

theorem mapGet_delete_ne (m : Items) (j k : String) (h : ¬ j = k) :
    mapGet (mapDelete m j) k = mapGet m k := by
  induction m with
  | nil => rfl
  | cons kv rest ih =>
    by_cases hj : kv.1 = j <;> by_cases hk : kv.1 = k <;>
      simp_all [mapGet, mapDelete]

theorem pruneItems_nodup (env : Env) :
    ∀ (files : List String) (items : Items), (items.map Prod.fst).Nodup →
    ((pruneItems env items files).map Prod.fst).Nodup := by
  intro files
  induction files with
  | nil => intro items h; exact h
  | cons f fs ih =>
    intro items h
    simp only [pruneItems, List.foldl_cons]
    by_cases hp : prunesFile env f = true
    · simpa [hp] using ih (mapDelete items f) (mapDelete_nodup items f h)
    · simpa [hp] using ih items h

theorem pruneItems_get_other (env : Env) :
    ∀ (files : List String) (items : Items) (k : String),
    (∀ f ∈ files, ¬ (prunesFile env f = true ∧ f = k)) →
    mapGet (pruneItems env items files) k = mapGet items k := by
  intro files
  induction files with
  | nil => intro items k _; rfl
  | cons f fs ih =>
    intro items k h
    simp only [pruneItems, List.foldl_cons]
    by_cases hp : prunesFile env f = true
    · have hfk : ¬ f = k := fun hh => (h f (by simp)) ⟨hp, hh⟩
      rw [show List.foldl (fun m f => if prunesFile env f then mapDelete m f else m)
          (if prunesFile env f = true then mapDelete items f else items) fs =
          pruneItems env (if prunesFile env f = true then mapDelete items f else items) fs
          from rfl]
      rw [ih _ k (fun g hg => h g (by simp [hg]))]
      simp [hp, mapGet_delete_ne items f k hfk]
    · rw [show List.foldl (fun m f => if prunesFile env f then mapDelete m f else m)
          (if prunesFile env f = true then mapDelete items f else items) fs =
          pruneItems env (if prunesFile env f = true then mapDelete items f else items) fs
          from rfl]
      rw [ih _ k (fun g hg => h g (by simp [hg]))]
      simp [hp]

theorem mapGet_delete_none (m : Items) (j k : String) (h : mapGet m k = none) :
    mapGet (mapDelete m j) k = none := by
  induction m with
  | nil => rfl
  | cons kv rest ih =>
    by_cases hj : kv.1 = j <;> by_cases hk : kv.1 = k <;>
      simp_all [mapGet, mapDelete]

theorem pruneItems_get_none (env : Env) :
    ∀ (files : List String) (items : Items) (k : String),
    mapGet items k = none →
    mapGet (pruneItems env items files) k = none := by
  intro files
  induction files with
  | nil => intro items k h; exact h
  | cons f fs ih =>
    intro items k h
    simp only [pruneItems, List.foldl_cons]
    by_cases hp : prunesFile env f = true <;>
      simp only [hp, if_true, if_false, Bool.false_eq_true]
    · exact ih _ k (mapGet_delete_none items f k h)
    · exact ih _ k h

theorem pruneItems_get_pruned (env : Env) :
    ∀ (files : List String) (items : Items) (k : String),
    (items.map Prod.fst).Nodup → k ∈ files → prunesFile env k = true →
    mapGet (pruneItems env items files) k = none := by
  intro files
  induction files with
  | nil => intro items k _ hk; simp at hk
  | cons f fs ih =>
    intro items k hnd hk hp
    simp only [pruneItems, List.foldl_cons]
    rcases List.mem_cons.mp hk with h | h
    · subst h
      simp only [hp, if_true]
      exact pruneItems_get_none env fs (mapDelete items k) k
        (by rw [mapGet_delete_nodup items k k hnd]; simp)
    · by_cases hpf : prunesFile env f = true <;>
        simp only [hpf, if_true, if_false, Bool.false_eq_true]
      · exact ih (mapDelete items f) k (mapDelete_nodup items f hnd) h hp
      · exact ih items k hnd h hp

theorem pruneItems_stable (env : Env) :
    ∀ (files : List String) (items : Items),
    (∀ f ∈ files, prunesFile env f = false) →
    pruneItems env items files = items := by
  intro files
  induction files with
  | nil => intro items _; rfl
  | cons f fs ih =>
    intro items h
    have hf := h f (by simp)
    simp only [pruneItems, List.foldl_cons, hf, Bool.false_eq_true, if_false]
    exact ih items (fun g hg => h g (by simp [hg]))

theorem contribution_zero_of_fails (env : Env) (f : String)
    (h : fileSucceeds env f = false) : contribution env f = 0 := by
  unfold fileSucceeds at h
  unfold contribution
  by_cases hex : env.existsAtRead f
  · rcases hr : env.readFile f with e | c
    · simp [hex, hr]
    · rcases ht : env.encodeLen c with e2 | n
      · simp [hex, hr, ht]
      · simp [hex, hr, ht] at h
  · simp [hex]

/-! ## Claim theorems: scheduler -/

/-- C2: a run of `updateTokenCount` that starts with a non-empty checked list
and completes without being superseded (no version bump occurs during it)
publishes the aggregate with count `runningTotal` and in-progress flag
false, where `runningTotal` is exactly the sum of the tokenizer outputs
(`encode(content).length`) over the checked-file paths `getCheckedFiles()`
returned at the start of the run; the hypotheses state that every checked
file stays readable and tokenizable for the duration of the run. -/
theorem claim_C2_uncontested_run_sum (env : Env) (p : Provider)
    (hne : getCheckedFiles env p.items ≠ [])
    (hstable : ∀ f ∈ getCheckedFiles env p.items, env.existsAtRead f = true ∧
      ∃ c n, env.readFile f = Except.ok c ∧ env.encodeLen c = Except.ok n) :
    updateTokenCount env [] p = RunOut.mk
      (Provider.mk p.items (runTotal env p.items) false p.version)
      [Payload.mk p.totalTokenCount true, Payload.mk (runTotal env p.items) false]
      (getCheckedFiles env p.items) ∧
    runTotal env p.items =
      ((getCheckedFiles env p.items).map (fun f =>
        match env.readFile f with
        | Except.ok c =>
            (match env.encodeLen c with
             | Except.ok n => n
             | Except.error _ => 0)
        | Except.error _ => 0)).sum := by
  have hstab2 : ∀ f ∈ getCheckedFiles env p.items, prunesFile env f = false := by
    intro f hf
    obtain ⟨hex, c, n, hr, _⟩ := hstable f hf
    simp [prunesFile, hex, hr]
  constructor
  · rw [updateTokenCount_uncontested env p hne]
    rw [pruneItems_stable env _ _ hstab2]
    rw [List.filter_eq_self.mpr (fun f hf => (hstable f hf).1)]
  · unfold runTotal
    congr 1
    apply List.map_congr_left
    intro f hf
    obtain ⟨hex, c, n, hr, ht⟩ := hstable f hf
    simp [contribution, hex]

/-- C7: during an uncontested recompute run every per-file error is
swallowed: a file that vanished, is unreadable or is rejected by the
tokenizer contributes nothing to the running total, the run still
completes and publishes a final aggregate, and exactly the files whose
error indicates non-existence (missing at the pre-read existence check or
ENOENT on read) are removed from the items map while every other entry is
left untouched. -/
theorem claim_C7_per_file_errors_swallowed (env : Env) (p : Provider)
    (hne : getCheckedFiles env p.items ≠ [])
    (hnd : (p.items.map Prod.fst).Nodup) :
    (updateTokenCount env [] p).events =
      [Payload.mk p.totalTokenCount true, Payload.mk (runTotal env p.items) false] ∧
    runTotal env p.items =
      ((getCheckedFiles env p.items).map (contribution env)).sum ∧
    (∀ f, fileSucceeds env f = false → contribution env f = 0) ∧
    (∀ f ∈ getCheckedFiles env p.items, prunesFile env f = true →
      mapGet (updateTokenCount env [] p).p.items f = none) ∧
    (∀ k : String, (∀ f ∈ getCheckedFiles env p.items, ¬ (prunesFile env f = true ∧ f = k)) →
      mapGet (updateTokenCount env [] p).p.items k = mapGet p.items k) := by
  rw [updateTokenCount_uncontested env p hne]
  refine ⟨rfl, rfl, ?_, ?_, ?_⟩
  · intro f hf
    exact contribution_zero_of_fails env f hf
  · intro f hf hp
    exact pruneItems_get_pruned env _ p.items f hnd hf hp
  · intro k hk
    exact pruneItems_get_other env _ p.items k hk

/-- C8: toggling the selection off is reflected immediately and with zero
file reads.  When every known item is checked, `toggleAllFiles` flips them
all off, synchronously increments the version counter (invalidating any
in-flight run), publishes count 0 with in-progress false, and arms no
debounce timer; and any `updateTokenCount` run that starts with an empty
checked list publishes count 0 with in-progress false without reading any
file. -/
theorem claim_C8_clear_immediate_no_io (p : Provider)
    (hall : p.items.all (fun kv => kv.2.isChecked) = true) :
    toggleAllFiles p = ToggleAllOut.mk
      (Provider.mk (p.items.map (fun kv => (kv.1, kv.2.updateCheckState false)))
        0 false (p.version + 1))
      [Payload.mk 0 false] false ∧
    (∀ (env : Env) (bumps : List Nat) (q : Provider),
      getCheckedFiles env q.items = [] →
      updateTokenCount env bumps q = RunOut.mk
        (Provider.mk q.items 0 false q.version)
        [Payload.mk 0 false] []) := by
  constructor
  · simp [toggleAllFiles, hall]
  · intro env bumps q h
    exact updateTokenCount_empty env bumps q h

/-- C1: a recompute run that is overtaken (a `debouncedUpdateTokenCount`
call increments the live version after the run captured its own) publishes
nothing once overtaken - its only event is the in-progress notification
from before the overtake, and no final not-counting payload ever comes
from it; composing the superseded run A with the fresh run B that the
invalidation schedules, exactly one final publish occurs and it carries
B's result (the total over the checked set as B sees it). -/
theorem claim_C1_superseded_never_publishes (env : Env) (p : Provider) (b : Nat)
    (hb : 0 < b) (f0 : String) (rest : List String)
    (hc : getCheckedFiles env p.items = f0 :: rest)
    (hex : env.existsAtRead f0 = true) :
    (updateTokenCount env [b] p).events = [Payload.mk p.totalTokenCount true] ∧
    ((updateTokenCount env [b] p).events.filter (fun e => !e.isCounting)) = [] ∧
    (((updateTokenCount env [b] p).events ++
        (updateTokenCount env [] (updateTokenCount env [b] p).p).events).filter
          (fun e => !e.isCounting)) =
      [Payload.mk (runTotal env (updateTokenCount env [b] p).p.items) false] := by
  obtain ⟨he, hv, _, _⟩ := updateTokenCount_superseded env p b hb f0 rest hc hex
  refine ⟨he, ?_, ?_⟩
  · rw [he]; simp
  · rw [List.filter_append, he]
    rw [updateTokenCount_final_filter env (updateTokenCount env [b] p).p]
    simp

/-- Witness for C2 at a concrete two-file selection. -/
theorem claim_C2_uncontested_run_sum_witness :
    getCheckedFiles envC2 provC2.items = ["a", "b"] ∧
    updateTokenCount envC2 [] provC2 = RunOut.mk
      (Provider.mk provC2.items (runTotal envC2 provC2.items) false provC2.version)
      [Payload.mk provC2.totalTokenCount true, Payload.mk (runTotal envC2 provC2.items) false]
      (getCheckedFiles envC2 provC2.items) ∧
    runTotal envC2 provC2.items = 3 := by
  have hs : ∀ f ∈ getCheckedFiles envC2 provC2.items, envC2.existsAtRead f = true ∧
      ∃ c n, envC2.readFile f = Except.ok c ∧ envC2.encodeLen c = Except.ok n := by
    intro f hf
    have he : getCheckedFiles envC2 provC2.items = ["a", "b"] := by decide
    rw [he] at hf
    simp only [List.mem_cons, List.not_mem_nil, or_false] at hf
    rcases hf with rfl | rfl
    · exact ⟨by decide, "xy", 2, rfl, rfl⟩
    · exact ⟨by decide, "z", 1, rfl, rfl⟩
  exact ⟨by decide, (claim_C2_uncontested_run_sum envC2 provC2 (by decide) hs).1, by decide⟩

/-- Witness for C7: the healthy file counts, the vanished and ENOENT files
are pruned, the unreadable and oversized files are skipped but kept, and
the run still publishes a final aggregate. -/
theorem claim_C7_per_file_errors_swallowed_witness :
    (updateTokenCount envC7 [] provC7).events =
      [Payload.mk 9 true, Payload.mk 2 false] ∧
    mapGet (updateTokenCount envC7 [] provC7).p.items "b" = none ∧
    mapGet (updateTokenCount envC7 [] provC7).p.items "c" = none ∧
    mapGet (updateTokenCount envC7 [] provC7).p.items "d" = mapGet provC7.items "d" ∧
    mapGet (updateTokenCount envC7 [] provC7).p.items "e" = mapGet provC7.items "e" := by
  have h := claim_C7_per_file_errors_swallowed envC7 provC7 (by decide) (by decide)
  refine ⟨?_, ?_, ?_, ?_, ?_⟩
  · rw [h.1]; decide
  · exact h.2.2.2.1 "b" (by decide) (by decide)
  · exact h.2.2.2.1 "c" (by decide) (by decide)
  · exact h.2.2.2.2 "d" (by decide)
  · exact h.2.2.2.2 "e" (by decide)

/-- Witness for C8 at a concrete fully-checked provider. -/
theorem claim_C8_clear_immediate_no_io_witness :
    toggleAllFiles provC8 = ToggleAllOut.mk
      (Provider.mk [("a", FileItem.mk "a" false "a" false)] 0 false 2)
      [Payload.mk 0 false] false ∧
    updateTokenCount envC8 [7] (toggleAllFiles provC8).p = RunOut.mk
      (Provider.mk [("a", FileItem.mk "a" false "a" false)] 0 false 2)
      [Payload.mk 0 false] [] := by
  have h := claim_C8_clear_immediate_no_io provC8 (by decide)
  constructor
  · rw [h.1]; decide
  · rw [h.2 envC8 [7] (toggleAllFiles provC8).p (by decide)]; decide

/-- Witness for C1: run A over two checked files is overtaken by one
invalidation during its first read; only run B's final publish of the
total 3 survives. -/
theorem claim_C1_superseded_never_publishes_witness :
    (updateTokenCount envC1 [1] provC1).events = [Payload.mk 5 true] ∧
    (((updateTokenCount envC1 [1] provC1).events ++
        (updateTokenCount envC1 [] (updateTokenCount envC1 [1] provC1).p).events).filter
          (fun e => !e.isCounting)) = [Payload.mk 3 false] := by
  have h := claim_C1_superseded_never_publishes envC1 provC1 1 (by decide) "a" ["b"]
    (by decide) (by decide)
  refine ⟨?_, ?_⟩
  · rw [h.1]; decide
  · rw [h.2.2]; decide

/-! ## Debounce lemmas -/

theorem updateTokenCount_last (env : Env) (q : Provider) :
    (updateTokenCount env [] q).events.getLast? =
      some (Payload.mk (runTotal env q.items) false) := by
  by_cases h : getCheckedFiles env q.items = []
  · rw [updateTokenCount_empty env [] q h]
    simp [runTotal, h]
  · rw [updateTokenCount_uncontested env q h]
    simp

theorem burst_armed : ∀ (n : Nat) (s : Sched) (t : Nat), s.timer = some t →
    burst n s = Sched.mk (s.version + n)
      (if n = 0 then some t else some (s.nextId + n - 1))
      (s.nextId + n)
      (s.cancelled ++ cancelledIds t s.nextId n) := by
  intro n
  induction n with
  | zero =>
    intro s t ht
    cases s
    simp_all [burst, cancelledIds]
  | succ m ih =>
    intro s t ht
    show burst m (debouncedUpdate s) = _
    rw [ih (debouncedUpdate s) s.nextId (by simp [debouncedUpdate])]
    simp only [debouncedUpdate, ht]
    cases m with
    | zero => simp [cancelledIds]
    | succ p =>
      simp only [cancelledIds, Sched.mk.injEq]
      refine ⟨by omega, by simp; omega, by omega, by simp⟩

theorem cancelledIds_lt : ∀ (n t k x : Nat), t < k → x ∈ cancelledIds t k n →
    x < k + n - 1 := by
  intro n
  induction n with
  | zero => intro t k x _ hx; simp [cancelledIds] at hx
  | succ p ih =>
    intro t k x htk hx
    simp only [cancelledIds, List.mem_cons] at hx
    rcases hx with rfl | hx
    · omega
    · have := ih k (k + 1) x (by omega) hx
      omega

theorem cancelledIds_mem : ∀ (m k i : Nat), i < m →
    k + i ∈ cancelledIds k (k + 1) m := by
  intro m
  induction m with
  | zero => intro k i h; omega
  | succ p ih =>
    intro k i h
    simp only [cancelledIds, List.mem_cons]
    cases i with
    | zero => left; rfl
    | succ j =>
      right
      have := ih (k + 1) j (by omega)
      have he : k + 1 + j = k + (j + 1) := by omega
      rwa [he] at this

/-! ## Claim theorem: debounce -/

/-- C3: in a burst of `n ≥ 1` calls to `debouncedUpdateTokenCount`, each
call synchronously increments the version counter, cancels any previously
pending timer and arms a fresh one; after the burst exactly the timer of
the last call is pending (every earlier timer of the burst was cancelled
and the pending one never was), so exactly one recompute run fires, and
that run reads the selection as it stands when the window closes: its
final publish carries the total over the items map at fire time. -/
theorem claim_C3_debounce_coalesces (s : Sched) (n : Nat) (hn : 1 ≤ n)
    (ht : s.timer = none) (hc : ∀ c ∈ s.cancelled, c < s.nextId) :
    (∀ s2 : Sched, (debouncedUpdate s2).version = s2.version + 1 ∧
      (debouncedUpdate s2).timer = some s2.nextId ∧
      (∀ t, s2.timer = some t → t ∈ (debouncedUpdate s2).cancelled)) ∧
    (burst n s).version = s.version + n ∧
    (burst n s).timer = some (s.nextId + n - 1) ∧
    (s.nextId + n - 1) ∉ (burst n s).cancelled ∧
    (∀ i, i < n - 1 → s.nextId + i ∈ (burst n s).cancelled) ∧
    (∀ (env : Env) (q : Provider),
      (updateTokenCount env [] q).events.getLast? =
        some (Payload.mk (runTotal env q.items) false)) := by
  obtain ⟨m, rfl⟩ : ∃ m, n = m + 1 := ⟨n - 1, by omega⟩
  have h1 : burst (m + 1) s = burst m (debouncedUpdate s) := rfl
  have h2 : burst m (debouncedUpdate s) = Sched.mk (s.version + 1 + m)
      (if m = 0 then some s.nextId else some (s.nextId + 1 + m - 1))
      (s.nextId + 1 + m)
      (s.cancelled ++ cancelledIds s.nextId (s.nextId + 1) m) := by
    rw [burst_armed m (debouncedUpdate s) s.nextId (by simp [debouncedUpdate])]
    simp [debouncedUpdate, ht]
  rw [h1, h2]
  refine ⟨?_, by simp; omega, ?_, ?_, ?_, fun env q => updateTokenCount_last env q⟩
  · intro s2
    refine ⟨rfl, rfl, ?_⟩
    intro t ht2
    simp [debouncedUpdate, ht2]
  · cases m with
    | zero => simp
    | succ p => simp only [Nat.succ_ne_zero, if_false]; congr 1; omega
  · simp only [List.mem_append, not_or]
    constructor
    · intro hmem
      have := hc _ hmem
      omega
    · intro hmem
      have := cancelledIds_lt m s.nextId (s.nextId + 1) (s.nextId + (m + 1) - 1)
        (by omega) hmem
      omega
  · intro i hi
    simp only [List.mem_append]
    cases i with
    | zero =>
      right
      have hm : 0 < m := by omega
      cases m with
      | zero => omega
      | succ p => simp [cancelledIds]
    | succ j =>
      right
      have := cancelledIds_mem m (s.nextId + 1) j ?_
      · have he : s.nextId + 1 + j = s.nextId + (j + 1) := by omega
        cases m with
        | zero => omega
        | succ p =>
          simp only [cancelledIds, List.mem_cons]
          right
          rw [← he]
          have hj : j < p := by omega
          exact cancelledIds_mem p (s.nextId + 1) j hj
      · omega

/-- Witness for C3: a burst of three invalidations from an idle scheduler
leaves version 3, exactly the third timer pending, and the first two
cancelled. -/
theorem claim_C3_debounce_coalesces_witness :
    (burst 3 (Sched.mk 0 none 0 [])).version = 3 ∧
    (burst 3 (Sched.mk 0 none 0 [])).timer = some 2 ∧
    2 ∉ (burst 3 (Sched.mk 0 none 0 [])).cancelled ∧
    0 ∈ (burst 3 (Sched.mk 0 none 0 [])).cancelled ∧
    1 ∈ (burst 3 (Sched.mk 0 none 0 [])).cancelled := by
  have h := claim_C3_debounce_coalesces (Sched.mk 0 none 0 []) 3 (by decide) rfl (by simp)
  exact ⟨h.2.1, h.2.2.1, h.2.2.2.1, h.2.2.2.2.1 0 (by decide), h.2.2.2.2.1 1 (by decide)⟩

/-! ## Assembler lemmas -/

theorem substDollar_no_dollar (matched pre post : List Char) :
    ∀ rep : List Char, rep.contains '$' = false →
    substDollar matched pre post rep = rep := by
  intro rep
  induction rep with
  | nil => intro _; rfl
  | cons c rest ih =>
    intro h
    have hc : ¬ c = '$' := by
      intro hh
      subst hh
      simp [List.contains_cons] at h
    have hrest : rest.contains '$' = false := by
      cases rest with
      | nil => rfl
      | cons c2 r2 =>
        simp only [List.contains_cons, Bool.or_eq_false_iff] at h ⊢
        exact h.2
    cases rest with
    | nil => rfl
    | cons c2 r2 =>
      simp only [substDollar, if_neg hc]
      rw [ih hrest]

theorem renderBlock_default_template (content : String) :
    renderBlock "r" "<file name=\"{fileNameWithExtension}\">{fileContent}</file>"
      "r/src/a.ts" content =
    String.mk ("<file name=\"a.ts\">".data ++
      substDollar "{fileContent}".data "<file name=\"a.ts\">".data "</file>".data
        content.data ++
      "</file>".data) := rfl

theorem readAllFiles_error (env : Env) :
    ∀ (files : List String) (f : String) (e : FsErr),
    f ∈ files → env.readFile f = Except.error e →
    ∃ g err, readAllFiles env files = Except.error (g, err) := by
  intro files
  induction files with
  | nil => intro f e hf _; simp at hf
  | cons g0 rest ih =>
    intro f e hf hr
    rcases hg : env.readFile g0 with e0 | c0
    · exact ⟨g0, e0, by simp [readAllFiles, hg]⟩
    · rcases List.mem_cons.mp hf with rfl | hf2
      · rw [hg] at hr; cases hr
      · obtain ⟨g, err, hrec⟩ := ih f e hf2 hr
        exact ⟨g, err, by simp [readAllFiles, hg, hrec]⟩

/-! ## Claim theorems: assembler -/

/-- C5 counterexample: the claim says the file content is inserted verbatim,
but `String.prototype.replace` expands dollar escapes in its replacement
string: content consisting of the two characters dollar-ampersand renders
as the literal text of the matched pattern, not as itself. -/
theorem claim_C5_counterexample_dollar_escape :
    renderBlock "r" "<file name=\"{fileNameWithExtension}\">{fileContent}</file>"
      "r/src/a.ts" "$&" = "<file name=\"a.ts\">{fileContent}</file>" ∧
    "<file name=\"a.ts\">{fileContent}</file>" ≠ "<file name=\"a.ts\">$&</file>" := by
  decide

/-- C5 (amended): `generateFile` renders each block by substituting, in this
fixed order, `fileNameWithExtension`, `rawFilePath`, `fileName`,
`fileExtension`, `fullPath` and last `fileContent`; because the content is
substituted last, placeholder-like substrings inside it are never
reinterpreted, and any content free of JavaScript replacement escapes
(a dollar followed by dollar, ampersand, backtick or quote) is inserted
verbatim; the concrete round trip of the claim holds. -/
theorem claim_C5_fixed_order_substitution :
    (∀ (root T path content : String),
      renderBlock root T path content =
        jsReplaceAll (jsReplaceAll (jsReplaceAll (jsReplaceAll (jsReplaceAll (jsReplaceAll T
          "{fileNameWithExtension}" (pathBasename path))
          "{rawFilePath}" ("/" ++ jsReplaceAll (pathRelative root path) "\\" "/"))
          "{fileName}" (pathBasenameNoExt path (pathExtname path)))
          "{fileExtension}" (pathExtname path))
          "{fullPath}" path)
          "{fileContent}" content) ∧
    (∀ content : String, content.data.contains '$' = false →
      renderBlock "r" "<file name=\"{fileNameWithExtension}\">{fileContent}</file>"
        "r/src/a.ts" content = "<file name=\"a.ts\">" ++ content ++ "</file>") ∧
    renderBlock "r" "<file name=\"{fileNameWithExtension}\">{fileContent}</file>"
      "r/src/a.ts" "X" = "<file name=\"a.ts\">X</file>" ∧
    renderBlock "r" "<file name=\"{fileNameWithExtension}\">{fileContent}</file>"
      "r/src/a.ts" "{fileName}" = "<file name=\"a.ts\">{fileName}</file>" := by
  refine ⟨fun root T path content => rfl, ?_, by decide, by decide⟩
  intro content h
  rw [renderBlock_default_template content]
  rw [substDollar_no_dollar _ _ _ content.data h]
  rfl

/-- C6: if any checked file is unreadable at render time, `generateFile`
aborts with an error and writes nothing - no output file and no truncated
artifact - while the Scheduler over the same environment leniently skips
the bad file and still publishes a final aggregate. -/
theorem claim_C6_render_aborts_on_unreadable
    (env : Env) (root bt bs : String) (wt : Option String) (ext raw ts : String)
    (items : Items) (f : String) (e : FsErr)
    (hf : f ∈ getCheckedFiles env items) (hr : env.readFile f = Except.error e) :
    (∃ g err, generateFile env root bt bs wt ext raw ts items =
      GenOutcome.genError g err) ∧
    (∀ outPath content, generateFile env root bt bs wt ext raw ts items ≠
      GenOutcome.written outPath content) ∧
    (∀ q : Provider, q.items = items →
      (updateTokenCount env [] q).events.getLast? =
        some (Payload.mk (runTotal env items) false)) := by
  have hne : ¬ ((getCheckedFiles env items).isEmpty = true) := by
    cases hgc : getCheckedFiles env items with
    | nil => rw [hgc] at hf; simp at hf
    | cons a b => simp
  obtain ⟨g, err, hra⟩ := readAllFiles_error env (getCheckedFiles env items) f e hf hr
  refine ⟨⟨g, err, ?_⟩, ?_, ?_⟩
  · simp only [generateFile, hra]
    rw [if_neg hne]
  · intro outPath content
    simp only [generateFile, hra]
    rw [if_neg hne]
    simp
  · intro q hq
    have h := updateTokenCount_last env q
    rw [hq] at h
    exact h

/-- Witness for C6 with a concrete unreadable file: the render errors, no
written outcome is possible, and the scheduler still publishes. -/
theorem claim_C6_render_aborts_on_unreadable_witness :
    (∃ g err, generateFile envC6 "r" "{fileContent}" "\n" none "txt" "context" "t0"
      itemsC6 = GenOutcome.genError g err) ∧
    (∀ outPath content, generateFile envC6 "r" "{fileContent}" "\n" none "txt" "context"
      "t0" itemsC6 ≠ GenOutcome.written outPath content) ∧
    (updateTokenCount envC6 [] (Provider.mk itemsC6 0 false 0)).events.getLast? =
      some (Payload.mk (runTotal envC6 itemsC6) false) := by
  have h := claim_C6_render_aborts_on_unreadable envC6 "r" "{fileContent}" "\n" none
    "txt" "context" "t0" itemsC6 "bad" FsErr.eaccess (by decide) rfl
  exact ⟨h.1, h.2.1, h.2.2 (Provider.mk itemsC6 0 false 0) rfl⟩

/-- Witness for C5: dollar-free content is inserted verbatim at the concrete
template and file of the claim. -/
theorem claim_C5_fixed_order_substitution_witness :
    ("X" : String).data.contains '$' = false ∧
    renderBlock "r" "<file name=\"{fileNameWithExtension}\">{fileContent}</file>"
      "r/src/a.ts" "X" = "<file name=\"a.ts\">" ++ "X" ++ "</file>" :=
  ⟨by decide, claim_C5_fixed_order_substitution.2.1 "X" (by decide)⟩

/-! ## Re-scan lemmas -/

theorem getChildrenLoop_unlisted (excl : List String) (element : Option FileItem)
    (dirPath : String) :
    ∀ (entries : List DirEntry) (items : Items) (k : String),
    k ∉ (entries.filter (fun e => ¬ excludedName excl e.name)).map
      (fun e => pathJoin dirPath e.name) →
    mapGet (getChildrenLoop excl element dirPath entries items).1 k = mapGet items k := by
  intro entries
  induction entries with
  | nil => intro items k _; rfl
  | cons e0 rest ih =>
    intro items k hk
    by_cases hx : excludedName excl e0.name
    · rw [show getChildrenLoop excl element dirPath (e0 :: rest) items =
        getChildrenLoop excl element dirPath rest items by simp [getChildrenLoop, hx]]
      apply ih
      intro hmem
      exact hk (by simp_all [List.mem_filter])
    · have hk0 : ¬ (k = pathJoin dirPath e0.name) := by
        intro hh
        apply hk
        refine List.mem_map.mpr ⟨e0, ?_, hh.symm⟩
        exact List.mem_filter.mpr ⟨List.mem_cons_self _ _, by simp [hx]⟩
      have hkrest : k ∉ (rest.filter (fun e => ¬ excludedName excl e.name)).map
          (fun e => pathJoin dirPath e.name) := by
        intro hmem
        apply hk
        simp only [List.filter_cons, hx]
        simp only [List.mem_map, List.mem_filter] at hmem ⊢
        obtain ⟨e1, he1, hpe⟩ := hmem
        exact ⟨e1, by simp_all [List.mem_filter], hpe⟩
      rcases hget : mapGet items (pathJoin dirPath e0.name) with _ | old
      · rw [show (getChildrenLoop excl element dirPath (e0 :: rest) items).1 =
          (getChildrenLoop excl element dirPath rest
            (mapSet items (pathJoin dirPath e0.name)
              (FileItem.mk e0.name e0.isDirectory (pathJoin dirPath e0.name)
                (inheritDefault element)))).1 by simp [getChildrenLoop, hx, hget]]
        rw [ih _ k hkrest]
        rw [mapGet_set]
        simp [hk0]
      · rw [show (getChildrenLoop excl element dirPath (e0 :: rest) items).1 =
          (getChildrenLoop excl element dirPath rest
            (mapSet items (pathJoin dirPath e0.name)
              (FileItem.mk e0.name e0.isDirectory (pathJoin dirPath e0.name)
                old.isChecked))).1 by simp [getChildrenLoop, hx, hget]]
        rw [ih _ k hkrest]
        rw [mapGet_set]
        simp [hk0]

theorem getChildrenLoop_listed (excl : List String) (element : Option FileItem)
    (dirPath : String) :
    ∀ (entries : List DirEntry) (items : Items) (e : DirEntry),
    e ∈ entries → ¬ excludedName excl e.name = true →
    ((entries.filter (fun e2 => ¬ excludedName excl e2.name)).map
      (fun e2 => pathJoin dirPath e2.name)).Nodup →
    mapGet (getChildrenLoop excl element dirPath entries items).1 (pathJoin dirPath e.name) =
      some (FileItem.mk e.name e.isDirectory (pathJoin dirPath e.name)
        (match mapGet items (pathJoin dirPath e.name) with
         | some old => old.isChecked
         | none => inheritDefault element)) := by
  intro entries
  induction entries with
  | nil => intro items e he; simp at he
  | cons e0 rest ih =>
    intro items e he hne hnd
    by_cases hx : excludedName excl e0.name
    · have he2 : e ∈ rest := by
        rcases List.mem_cons.mp he with rfl | h2
        · exact absurd hx hne
        · exact h2
      rw [show getChildrenLoop excl element dirPath (e0 :: rest) items =
        getChildrenLoop excl element dirPath rest items by simp [getChildrenLoop, hx]]
      exact ih items e he2 hne (by simpa [List.filter_cons, hx] using hnd)
    · have hnd1 : ((pathJoin dirPath e0.name) ::
          (rest.filter (fun e2 => ¬ excludedName excl e2.name)).map
            (fun e2 => pathJoin dirPath e2.name)).Nodup := by
        simpa [List.filter_cons, hx] using hnd
      have hnd2 : ((rest.filter (fun e2 => ¬ excludedName excl e2.name)).map
          (fun e2 => pathJoin dirPath e2.name)).Nodup := (List.nodup_cons.mp hnd1).2
      have hp0 : (pathJoin dirPath e0.name) ∉
          ((rest.filter (fun e2 => ¬ excludedName excl e2.name)).map
            (fun e2 => pathJoin dirPath e2.name)) := (List.nodup_cons.mp hnd1).1
      rcases List.mem_cons.mp he with rfl | he2
      · rcases hget : mapGet items (pathJoin dirPath e.name) with _ | old
        · rw [show (getChildrenLoop excl element dirPath (e :: rest) items).1 =
            (getChildrenLoop excl element dirPath rest
              (mapSet items (pathJoin dirPath e.name)
                (FileItem.mk e.name e.isDirectory (pathJoin dirPath e.name)
                  (inheritDefault element)))).1 by simp [getChildrenLoop, hx, hget]]
          rw [getChildrenLoop_unlisted excl element dirPath rest _ _ hp0]
          rw [mapGet_set]
          simp
        · rw [show (getChildrenLoop excl element dirPath (e :: rest) items).1 =
            (getChildrenLoop excl element dirPath rest
              (mapSet items (pathJoin dirPath e.name)
                (FileItem.mk e.name e.isDirectory (pathJoin dirPath e.name)
                  old.isChecked))).1 by simp [getChildrenLoop, hx, hget]]
          rw [getChildrenLoop_unlisted excl element dirPath rest _ _ hp0]
          rw [mapGet_set]
          simp
      · have hpe : pathJoin dirPath e.name ∈
            ((rest.filter (fun e2 => ¬ excludedName excl e2.name)).map
              (fun e2 => pathJoin dirPath e2.name)) := by
          refine List.mem_map.mpr ⟨e, ?_, rfl⟩
          exact List.mem_filter.mpr ⟨he2, by simp [hne]⟩
        have hpne : ¬ (pathJoin dirPath e.name = pathJoin dirPath e0.name) := by
          intro hh
          rw [hh] at hpe
          exact hp0 hpe
        rcases hget : mapGet items (pathJoin dirPath e0.name) with _ | old
        · rw [show (getChildrenLoop excl element dirPath (e0 :: rest) items).1 =
            (getChildrenLoop excl element dirPath rest
              (mapSet items (pathJoin dirPath e0.name)
                (FileItem.mk e0.name e0.isDirectory (pathJoin dirPath e0.name)
                  (inheritDefault element)))).1 by simp [getChildrenLoop, hx, hget]]
          rw [ih _ e he2 hne hnd2]
          rw [mapGet_set]
          simp [hpne]
        · rw [show (getChildrenLoop excl element dirPath (e0 :: rest) items).1 =
            (getChildrenLoop excl element dirPath rest
              (mapSet items (pathJoin dirPath e0.name)
                (FileItem.mk e0.name e0.isDirectory (pathJoin dirPath e0.name)
                  old.isChecked))).1 by simp [getChildrenLoop, hx, hget]]
          rw [ih _ e he2 hne hnd2]
          rw [mapGet_set]
          simp [hpne]

/-! ## Claim theorem: re-scan -/

/-- C10: on a re-scan of an existing directory, every listed non-excluded
entry's Node is replaced by a freshly built one (label and kind from the
current directory entry) whose checked state is carried forward by path
lookup when the path was previously known, and defaults to the listed
parent's checked state - false for root entries and unknown parents - when
the path is new; paths not listed by this scan keep their map entry
untouched. -/
theorem claim_C10_rescan_replaces_nodes_carries_state
    (env : Env) (excl : List String) (workspaceRoot : String)
    (element : Option FileItem) (items : Items) (dirPath : String)
    (hdp : dirPath = (match element with | some el => el.filePath | none => workspaceRoot))
    (hex : env.existsAtScan dirPath = true) (hd : env.isDir dirPath = true)
    (hnd : (((env.readdir dirPath).filter (fun e => ¬ excludedName excl e.name)).map
      (fun e => pathJoin dirPath e.name)).Nodup) :
    (∀ e ∈ env.readdir dirPath, ¬ excludedName excl e.name = true →
      (∀ old, mapGet items (pathJoin dirPath e.name) = some old →
        mapGet (getChildren env excl workspaceRoot element items).1
            (pathJoin dirPath e.name) =
          some (FileItem.mk e.name e.isDirectory (pathJoin dirPath e.name)
            old.isChecked)) ∧
      (mapGet items (pathJoin dirPath e.name) = none →
        mapGet (getChildren env excl workspaceRoot element items).1
            (pathJoin dirPath e.name) =
          some (FileItem.mk e.name e.isDirectory (pathJoin dirPath e.name)
            (inheritDefault element)))) ∧
    (∀ k, k ∉ ((env.readdir dirPath).filter (fun e => ¬ excludedName excl e.name)).map
        (fun e => pathJoin dirPath e.name) →
      mapGet (getChildren env excl workspaceRoot element items).1 k = mapGet items k) := by
  have hgc : (getChildren env excl workspaceRoot element items).1 =
      (getChildrenLoop excl element dirPath (env.readdir dirPath) items).1 := by
    simp [getChildren, ← hdp, hex, hd]
  constructor
  · intro e he hne
    constructor
    · intro old hold
      rw [hgc, getChildrenLoop_listed excl element dirPath _ items e he hne hnd, hold]
    · intro hnone
      rw [hgc, getChildrenLoop_listed excl element dirPath _ items e he hne hnd, hnone]
  · intro k hk
    rw [hgc]
    exact getChildrenLoop_unlisted excl element dirPath _ items k hk

/-- Witness for C10: the known child keeps its stored unchecked state, the
newly seen sibling inherits the checked parent's state, and an unrelated
path is untouched. -/
theorem claim_C10_rescan_replaces_nodes_carries_state_witness :
    mapGet (getChildren envC10 [] "r" elemC10 itemsC10).1 "r/d/x" =
      some (FileItem.mk "x" false "r/d/x" false) ∧
    mapGet (getChildren envC10 [] "r" elemC10 itemsC10).1 "r/d/y" =
      some (FileItem.mk "y" false "r/d/y" true) ∧
    mapGet (getChildren envC10 [] "r" elemC10 itemsC10).1 "z" = mapGet itemsC10 "z" := by
  have h := claim_C10_rescan_replaces_nodes_carries_state envC10 [] "r" elemC10 itemsC10
    "r/d" rfl rfl rfl (by decide)
  refine ⟨?_, ?_, ?_⟩
  · exact (h.1 (DirEntry.mk "x" false) (by decide) (by decide)).1
      (FileItem.mk "x" false "r/d/x" false) (by decide)
  · exact (h.1 (DirEntry.mk "y" false) (by decide) (by decide)).2 (by decide)
  · exact h.2 "z" (by decide)

/-! ## Cascade lemmas -/

mutual
theorem cascadeTree_spec (g : GateEnv) (excl : List String) (checked : Bool) :
    ∀ (dirPath : String) (e : FsTree) (items : Items),
    ((walkTree excl dirPath e).map WEntry.path).Nodup →
    (∀ w ∈ walkTree excl dirPath e,
      ∃ it, mapGet (cascadeTree g excl checked dirPath e items).1 w.path = some it ∧
        it.isChecked = cascadeTarget g checked w) ∧
    (∀ k, k ∉ (walkTree excl dirPath e).map WEntry.path →
      mapGet (cascadeTree g excl checked dirPath e items).1 k = mapGet items k) ∧
    (cascadeTree g excl checked dirPath e items).2 =
      (walkTree excl dirPath e).any (cascadeDeclined g checked)
  | dirPath, FsTree.file nm sz, items => by
    by_cases hx : excludedName excl nm
    · intro hnd
      refine ⟨?_, ?_, ?_⟩
      · intro w hw
        simp [walkTree, hx] at hw
      · intro k _
        simp [cascadeTree, hx]
      · simp [cascadeTree, walkTree, hx]
    · intro hnd
      rcases hget : mapGet items (pathJoin dirPath nm) with _ | old
      · have hred : cascadeTree g excl checked dirPath (FsTree.file nm sz) items =
            (mapSet items (pathJoin dirPath nm)
              (FileItem.mk nm false (pathJoin dirPath nm)
                (if checked && gateCancels g sz (pathJoin dirPath nm) then false
                 else checked)),
             checked && gateCancels g sz (pathJoin dirPath nm)) := by
          simp [cascadeTree, hx, hget]
        refine ⟨?_, ?_, ?_⟩
        · intro w hw
          simp only [walkTree, hx, not_false_eq_true, if_false, List.mem_singleton,
            Bool.false_eq_true] at hw
          subst hw
          refine ⟨FileItem.mk nm false (pathJoin dirPath nm)
            (if checked && gateCancels g sz (pathJoin dirPath nm) then false
             else checked), ?_, ?_⟩
          · rw [hred]
            show mapGet (mapSet items _ _) _ = _
            rw [mapGet_set]
            simp
          · simp [cascadeTarget]
        · intro k hk
          simp only [walkTree, hx, not_false_eq_true, if_false, List.map_cons,
            List.map_nil, List.mem_singleton, Bool.false_eq_true] at hk
          rw [hred]
          show mapGet (mapSet items _ _) _ = _
          rw [mapGet_set]
          simp_all
        · rw [hred]
          simp [walkTree, hx, cascadeDeclined]
      · have hred : cascadeTree g excl checked dirPath (FsTree.file nm sz) items =
            (mapSet items (pathJoin dirPath nm)
              (old.updateCheckState
                (if checked && gateCancels g sz (pathJoin dirPath nm) then false
                 else checked)),
             checked && gateCancels g sz (pathJoin dirPath nm)) := by
          simp [cascadeTree, hx, hget]
        refine ⟨?_, ?_, ?_⟩
        · intro w hw
          simp only [walkTree, hx, not_false_eq_true, if_false, List.mem_singleton,
            Bool.false_eq_true] at hw
          subst hw
          refine ⟨old.updateCheckState
            (if checked && gateCancels g sz (pathJoin dirPath nm) then false
             else checked), ?_, ?_⟩
          · rw [hred]
            show mapGet (mapSet items _ _) _ = _
            rw [mapGet_set]
            simp
          · simp [cascadeTarget, FileItem.updateCheckState]
        · intro k hk
          simp only [walkTree, hx, not_false_eq_true, if_false, List.map_cons,
            List.map_nil, List.mem_singleton, Bool.false_eq_true] at hk
          rw [hred]
          show mapGet (mapSet items _ _) _ = _
          rw [mapGet_set]
          simp_all
        · rw [hred]
          simp [walkTree, hx, cascadeDeclined]
  | dirPath, FsTree.dir nm kids, items => by
    by_cases hx : excludedName excl nm
    · intro hnd
      refine ⟨?_, ?_, ?_⟩
      · intro w hw
        simp [walkTree, hx] at hw
      · intro k _
        simp [cascadeTree, hx]
      · simp [cascadeTree, walkTree, hx]
    · intro hnd
      have hwalk : walkTree excl dirPath (FsTree.dir nm kids) =
          WEntry.mk (pathJoin dirPath nm) nm true 0 ::
            walkForest excl (pathJoin dirPath nm) kids := by
        simp [walkTree, hx]
      rw [hwalk] at hnd ⊢
      simp only [List.map_cons, List.nodup_cons] at hnd
      rcases hget : mapGet items (pathJoin dirPath nm) with _ | old
      · have hred : cascadeTree g excl checked dirPath (FsTree.dir nm kids) items =
            cascadeForest g excl checked (pathJoin dirPath nm) kids
              (mapSet items (pathJoin dirPath nm)
                (FileItem.mk nm true (pathJoin dirPath nm) checked)) := by
          simp [cascadeTree, hx, hget]
        rw [hred]
        have hf := cascadeForest_spec g excl checked (pathJoin dirPath nm) kids
          (mapSet items (pathJoin dirPath nm)
            (FileItem.mk nm true (pathJoin dirPath nm) checked)) hnd.2
        refine ⟨?_, ?_, ?_⟩
        · intro w hw
          rcases List.mem_cons.mp hw with rfl | hw2
          · refine ⟨FileItem.mk nm true (pathJoin dirPath nm) checked, ?_, ?_⟩
            · rw [hf.2.1 _ hnd.1, mapGet_set]
              simp
            · simp [cascadeTarget]
          · exact hf.1 w hw2
        · intro k hk
          simp only [List.map_cons, List.mem_cons, not_or] at hk
          rw [hf.2.1 _ hk.2, mapGet_set]
          simp [fun h => hk.1 h]
        · rw [hf.2.2]
          simp [cascadeDeclined]
      · have hred : cascadeTree g excl checked dirPath (FsTree.dir nm kids) items =
            cascadeForest g excl checked (pathJoin dirPath nm) kids
              (mapSet items (pathJoin dirPath nm)
                (old.updateCheckState checked)) := by
          simp [cascadeTree, hx, hget]
        rw [hred]
        have hf := cascadeForest_spec g excl checked (pathJoin dirPath nm) kids
          (mapSet items (pathJoin dirPath nm) (old.updateCheckState checked)) hnd.2
        refine ⟨?_, ?_, ?_⟩
        · intro w hw
          rcases List.mem_cons.mp hw with rfl | hw2
          · refine ⟨old.updateCheckState checked, ?_, ?_⟩
            · rw [hf.2.1 _ hnd.1, mapGet_set]
              simp
            · simp [cascadeTarget, FileItem.updateCheckState]
          · exact hf.1 w hw2
        · intro k hk
          simp only [List.map_cons, List.mem_cons, not_or] at hk
          rw [hf.2.1 _ hk.2, mapGet_set]
          simp [fun h => hk.1 h]
        · rw [hf.2.2]
          simp [cascadeDeclined]
theorem cascadeForest_spec (g : GateEnv) (excl : List String) (checked : Bool) :
    ∀ (dirPath : String) (f : FsForest) (items : Items),
    ((walkForest excl dirPath f).map WEntry.path).Nodup →
    (∀ w ∈ walkForest excl dirPath f,
      ∃ it, mapGet (cascadeForest g excl checked dirPath f items).1 w.path = some it ∧
        it.isChecked = cascadeTarget g checked w) ∧
    (∀ k, k ∉ (walkForest excl dirPath f).map WEntry.path →
      mapGet (cascadeForest g excl checked dirPath f items).1 k = mapGet items k) ∧
    (cascadeForest g excl checked dirPath f items).2 =
      (walkForest excl dirPath f).any (cascadeDeclined g checked)
  | dirPath, FsForest.nil, items => by
    intro _
    refine ⟨?_, ?_, ?_⟩
    · intro w hw
      simp [walkForest] at hw
    · intro k _
      rfl
    · rfl
  | dirPath, FsForest.cons e rest, items => by
    intro hnd
    have hwalk : walkForest excl dirPath (FsForest.cons e rest) =
        walkTree excl dirPath e ++ walkForest excl dirPath rest := rfl
    rw [hwalk] at hnd ⊢
    rw [List.map_append, List.nodup_append] at hnd
    obtain ⟨nd1, nd2, hdisj⟩ := hnd
    have ht := cascadeTree_spec g excl checked dirPath e items nd1
    have hred : cascadeForest g excl checked dirPath (FsForest.cons e rest) items =
        ((cascadeForest g excl checked dirPath rest
            (cascadeTree g excl checked dirPath e items).1).1,
          (cascadeTree g excl checked dirPath e items).2 ||
          (cascadeForest g excl checked dirPath rest
            (cascadeTree g excl checked dirPath e items).1).2) := rfl
    have hr := cascadeForest_spec g excl checked dirPath rest
      (cascadeTree g excl checked dirPath e items).1 nd2
    rw [hred]
    refine ⟨?_, ?_, ?_⟩
    · intro w hw
      rcases List.mem_append.mp hw with hw1 | hw2
      · obtain ⟨it, hit, hchk⟩ := ht.1 w hw1
        refine ⟨it, ?_, hchk⟩
        rw [hr.2.1 w.path (hdisj (List.mem_map.mpr ⟨w, hw1, rfl⟩))]
        exact hit
      · exact hr.1 w hw2
    · intro k hk
      simp only [List.map_append, List.mem_append, not_or] at hk
      rw [hr.2.1 k hk.2]
      exact ht.2.1 k hk.1
    · rw [ht.2.2, hr.2.2, List.any_append]
end

mutual
theorem walkTree_path_long (excl : List String) :
    ∀ (dirPath : String) (e : FsTree), ∀ w ∈ walkTree excl dirPath e,
      dirPath.length < w.path.length
  | dirPath, FsTree.file nm sz => by
    intro w hw
    by_cases hx : excludedName excl nm
    · simp [walkTree, hx] at hw
    · simp only [walkTree, hx, not_false_eq_true, if_false, List.mem_singleton,
        Bool.false_eq_true] at hw
      subst hw
      have h1 : ("/" : String).length = 1 := rfl
      simp only [pathJoin, String.length_append, h1]
      omega
  | dirPath, FsTree.dir nm kids => by
    intro w hw
    by_cases hx : excludedName excl nm
    · simp [walkTree, hx] at hw
    · simp only [walkTree, hx, not_false_eq_true, if_false, List.mem_cons,
        Bool.false_eq_true] at hw
      have h1 : ("/" : String).length = 1 := rfl
      rcases hw with rfl | hw2
      · simp only [pathJoin, String.length_append, h1]
        omega
      · have h2 := walkForest_path_long excl (pathJoin dirPath nm) kids w hw2
        simp only [pathJoin, String.length_append, h1] at h2
        omega
theorem walkForest_path_long (excl : List String) :
    ∀ (dirPath : String) (f : FsForest), ∀ w ∈ walkForest excl dirPath f,
      dirPath.length < w.path.length
  | dirPath, FsForest.nil => by
    intro w hw
    simp [walkForest] at hw
  | dirPath, FsForest.cons e rest => by
    intro w hw
    rcases List.mem_append.mp hw with h | h
    · exact walkTree_path_long excl dirPath e w h
    · exact walkForest_path_long excl dirPath rest w h
end

/-! ## Claim theorem: partial cascade -/

/-- C4: toggling an unchecked directory on, where the size gate declines
exactly one walked descendant file and accepts every other walked file,
leaves the directory checked, the declined file unchecked and every other
walked descendant checked; the cascade reports that a decline occurred
(`toggleDirectoryChildren` returns true), a recompute is still triggered,
and nothing is rolled back. -/
theorem claim_C4_partial_cascade (g : GateEnv) (excl : List String) (sizeKB : Nat)
    (subtree : FsForest) (item : FileItem) (items : Items) (d : WEntry)
    (hfolder : item.isDirectory = true) (hoff : item.isChecked = false)
    (hnd : ((walkForest excl item.filePath subtree).map WEntry.path).Nodup)
    (hd : d ∈ walkForest excl item.filePath subtree) (hdfile : d.isDir = false)
    (hdecl : gateCancels g d.sizeKB d.path = true)
    (hothers : ∀ w ∈ walkForest excl item.filePath subtree, w.path ≠ d.path →
      w.isDir = true ∨ gateCancels g w.sizeKB w.path = false) :
    mapGet (toggleCheck g excl sizeKB subtree item items).items item.filePath =
      some (item.updateCheckState true) ∧
    (∃ it, mapGet (toggleCheck g excl sizeKB subtree item items).items d.path =
      some it ∧ it.isChecked = false) ∧
    (∀ w ∈ walkForest excl item.filePath subtree, w.path ≠ d.path →
      ∃ it, mapGet (toggleCheck g excl sizeKB subtree item items).items w.path =
        some it ∧ it.isChecked = true) ∧
    (cascadeForest g excl true item.filePath subtree items).2 = true ∧
    (toggleCheck g excl sizeKB subtree item items).recompute = true := by
  have hctx : item.contextValue = "folder" := by
    simp [FileItem.contextValue, hfolder]
  have hred : toggleCheck g excl sizeKB subtree item items =
      ToggleOut.mk (mapSet (cascadeForest g excl true item.filePath subtree items).1
        item.filePath (item.updateCheckState true)) true := by
    simp [toggleCheck, hoff, hctx]
  have hspec := cascadeForest_spec g excl true item.filePath subtree items hnd
  have hne_item : ∀ w ∈ walkForest excl item.filePath subtree,
      ¬ (w.path = item.filePath) := by
    intro w hw hh
    have := walkForest_path_long excl item.filePath subtree w hw
    rw [hh] at this
    omega
  refine ⟨?_, ?_, ?_, ?_, ?_⟩
  · rw [hred]
    show mapGet (mapSet _ _ _) _ = _
    rw [mapGet_set]
    simp
  · obtain ⟨it, hit, hchk⟩ := hspec.1 d hd
    refine ⟨it, ?_, ?_⟩
    · rw [hred]
      show mapGet (mapSet _ _ _) _ = _
      rw [mapGet_set]
      rw [if_neg (hne_item d hd)]
      exact hit
    · rw [hchk]
      simp [cascadeTarget, hdfile, hdecl]
  · intro w hw hwd
    obtain ⟨it, hit, hchk⟩ := hspec.1 w hw
    refine ⟨it, ?_, ?_⟩
    · rw [hred]
      show mapGet (mapSet _ _ _) _ = _
      rw [mapGet_set]
      rw [if_neg (hne_item w hw)]
      exact hit
    · rw [hchk]
      rcases hothers w hw hwd with hdir | hacc
      · simp [cascadeTarget, hdir]
      · simp [cascadeTarget, hacc]
  · rw [hspec.2.2]
    refine List.any_eq_true.mpr ⟨d, hd, ?_⟩
    simp [cascadeDeclined, hdfile, hdecl]
  · rw [hred]

/-- Witness for C4: the directory ends checked, the declined oversized file
unchecked, the other two files and the subdirectory checked, the cascade
reports the decline and a recompute is triggered. -/
theorem claim_C4_partial_cascade_witness :
    mapGet (toggleCheck gC4 [] 0 treeC4 itemC4 itemsC4).items itemC4.filePath =
      some (itemC4.updateCheckState true) ∧
    (∃ it, mapGet (toggleCheck gC4 [] 0 treeC4 itemC4 itemsC4).items "r/d/big.bin" =
      some it ∧ it.isChecked = false) ∧
    (∃ it, mapGet (toggleCheck gC4 [] 0 treeC4 itemC4 itemsC4).items "r/d/small.txt" =
      some it ∧ it.isChecked = true) ∧
    (∃ it, mapGet (toggleCheck gC4 [] 0 treeC4 itemC4 itemsC4).items "r/d/sub" =
      some it ∧ it.isChecked = true) ∧
    (∃ it, mapGet (toggleCheck gC4 [] 0 treeC4 itemC4 itemsC4).items "r/d/sub/inner.txt" =
      some it ∧ it.isChecked = true) ∧
    (cascadeForest gC4 [] true itemC4.filePath treeC4 itemsC4).2 = true ∧
    (toggleCheck gC4 [] 0 treeC4 itemC4 itemsC4).recompute = true := by
  have h := claim_C4_partial_cascade gC4 [] 0 treeC4 itemC4 itemsC4 dC4
    rfl rfl (by decide) (by decide) rfl (by decide) (by decide)
  exact ⟨h.1, h.2.1,
    h.2.2.1 (WEntry.mk "r/d/small.txt" "small.txt" false 1) (by decide) (by decide),
    h.2.2.1 (WEntry.mk "r/d/sub" "sub" true 0) (by decide) (by decide),
    h.2.2.1 (WEntry.mk "r/d/sub/inner.txt" "inner.txt" false 2) (by decide) (by decide),
    h.2.2.2.1, h.2.2.2.2⟩

/-! ## Double-toggle lemmas -/

theorem updateCheckState_self (it : FileItem) : it.updateCheckState it.isChecked = it := by
  cases it
  rfl

theorem updateCheckState_twice (it : FileItem) (a b : Bool) :
    (it.updateCheckState a).updateCheckState b = it.updateCheckState b := rfl

theorem nodup_mem_get (m : Items) (k : String) (x : FileItem)
    (hnd : (m.map Prod.fst).Nodup) (hmem : (k, x) ∈ m) : mapGet m k = some x := by
  induction m with
  | nil => simp at hmem
  | cons kv rest ih =>
    simp only [List.map_cons, List.nodup_cons, List.mem_map] at hnd
    rcases List.mem_cons.mp hmem with rfl | h2
    · simp [mapGet]
    · have hne : ¬ kv.1 = k := by
        intro hh
        exact hnd.1 ⟨(k, x), h2, by rw [hh]⟩
      simp only [mapGet, if_neg hne]
      exact ih hnd.2 h2

theorem setWalked_nil (t : Bool) (items : Items) : setWalked [] t items = items := by
  simp [setWalked]

theorem setWalked_keys (ps : List String) (t : Bool) (items : Items) :
    (setWalked ps t items).map Prod.fst = items.map Prod.fst := by
  simp only [setWalked, List.map_map]
  apply List.map_congr_left
  intro kv _
  by_cases h : kv.1 ∈ ps <;> simp [h]

theorem setWalked_get (ps : List String) (t : Bool) (items : Items) (k : String) :
    mapGet (setWalked ps t items) k =
      (mapGet items k).map (fun it => if ps.contains k then it.updateCheckState t else it) := by
  induction items with
  | nil => rfl
  | cons kv rest ih =>
    by_cases hk : kv.1 = k <;> cases hc : ps.contains kv.1 <;>
      simp_all [setWalked, mapGet]

theorem setWalked_setWalked (ps qs : List String) (t : Bool) (items : Items) :
    setWalked ps t (setWalked qs t items) = setWalked (qs ++ ps) t items := by
  simp only [setWalked, List.map_map]
  apply List.map_congr_left
  intro kv _
  by_cases hq : kv.1 ∈ qs <;> by_cases hp : kv.1 ∈ ps <;>
    simp [hq, hp, Function.comp, FileItem.updateCheckState]

theorem mapSet_keys_present (m : Items) (k : String) (v : FileItem)
    (h : (mapGet m k).isSome) : (mapSet m k v).map Prod.fst = m.map Prod.fst := by
  rw [mapSet_keys, if_pos h]

theorem mapSet_mapSet_same (m : Items) (k : String) (v1 v2 : FileItem) :
    mapSet (mapSet m k v1) k v2 = mapSet m k v2 := by
  induction m with
  | nil => simp [mapSet]
  | cons kv rest ih =>
    by_cases hk : kv.1 = k <;> simp_all [mapSet]

theorem assoc_ext : ∀ (l1 l2 : Items), l1.map Prod.fst = l2.map Prod.fst →
    ((l2.map Prod.fst).Nodup) → (∀ k, mapGet l1 k = mapGet l2 k) → l1 = l2 := by
  intro l1
  induction l1 with
  | nil =>
    intro l2 hk _ _
    have h2 : l2.map Prod.fst = [] := by simpa using hk
    rw [List.map_eq_nil_iff] at h2
    exact h2.symm
  | cons kv rest ih =>
    intro l2 hk hnd hget
    cases l2 with
    | nil => simp at hk
    | cons kw rest2 =>
      simp only [List.map_cons, List.cons.injEq] at hk
      obtain ⟨hk1, hk2⟩ := hk
      have hv : kv.2 = kw.2 := by
        have h1 := hget kv.1
        simp only [mapGet, if_pos rfl] at h1
        rw [if_pos hk1.symm] at h1
        exact Option.some.injEq _ _ ▸ h1
      have hpair : kv = kw := by
        cases kv; cases kw
        simp_all
      subst hpair
      simp only [List.map_cons, List.nodup_cons, List.mem_map] at hnd
      have htails : ∀ k, mapGet rest k = mapGet rest2 k := by
        intro k
        by_cases hkk : kv.1 = k
        · subst hkk
          have h2 : mapGet rest2 kv.1 = none :=
            mapGet_none_not_mem rest2 kv.1 (fun x hx => hnd.1 ⟨(kv.1, x), hx, rfl⟩)
          have h3 : mapGet rest kv.1 = none := by
            rw [mapGet_none_iff] at h2 ⊢
            rw [hk2]
            exact h2
          rw [h2, h3]
        · have h1 := hget k
          simp only [mapGet, if_neg hkk] at h1
          exact h1
      rw [ih rest2 hk2 hnd.2 htails]

theorem mapSet_upd_eq_setWalked_single (m : Items) (p : String) (old : FileItem)
    (t : Bool) (hnd : (m.map Prod.fst).Nodup) (hget : mapGet m p = some old) :
    mapSet m p (old.updateCheckState t) = setWalked [p] t m := by
  apply assoc_ext
  · rw [mapSet_keys_present m p _ (by simp [hget]), setWalked_keys]
  · rw [setWalked_keys]
    exact hnd
  · intro k
    rw [mapGet_set, setWalked_get]
    by_cases hk : k = p
    · subst hk
      simp [hget]
    · simp [hk, Ne.symm hk]

mutual
theorem cascadeTree_known (g : GateEnv) (excl : List String) (checked : Bool) :
    ∀ (dirPath : String) (e : FsTree) (items : Items),
    (items.map Prod.fst).Nodup →
    (∀ w ∈ walkTree excl dirPath e, (mapGet items w.path).isSome) →
    (∀ w ∈ walkTree excl dirPath e, w.isDir = false →
      gateCancels g w.sizeKB w.path = false) →
    cascadeTree g excl checked dirPath e items =
      (setWalked ((walkTree excl dirPath e).map WEntry.path) checked items, false)
  | dirPath, FsTree.file nm sz, items => by
    intro hnd hknown hgate
    by_cases hx : excludedName excl nm
    · simp [cascadeTree, walkTree, hx, setWalked_nil]
    · have hw0 : WEntry.mk (pathJoin dirPath nm) nm false sz ∈
          walkTree excl dirPath (FsTree.file nm sz) := by
        simp [walkTree, hx]
      have hg := hgate _ hw0 rfl
      have hk := hknown _ hw0
      rcases hget : mapGet items (pathJoin dirPath nm) with _ | old
      · rw [hget] at hk
        simp at hk
      · have hred : cascadeTree g excl checked dirPath (FsTree.file nm sz) items =
            (mapSet items (pathJoin dirPath nm) (old.updateCheckState checked),
              false) := by
          simp [cascadeTree, hx, hget, hg]
        rw [hred, mapSet_upd_eq_setWalked_single items _ old checked hnd hget]
        simp [walkTree, hx]
  | dirPath, FsTree.dir nm kids, items => by
    intro hnd hknown hgate
    by_cases hx : excludedName excl nm
    · simp [cascadeTree, walkTree, hx, setWalked_nil]
    · have hwalk : walkTree excl dirPath (FsTree.dir nm kids) =
          WEntry.mk (pathJoin dirPath nm) nm true 0 ::
            walkForest excl (pathJoin dirPath nm) kids := by
        simp [walkTree, hx]
      have hw0 : WEntry.mk (pathJoin dirPath nm) nm true 0 ∈
          walkTree excl dirPath (FsTree.dir nm kids) := by
        rw [hwalk]
        exact List.mem_cons_self _ _
      have hk := hknown _ hw0
      rcases hget : mapGet items (pathJoin dirPath nm) with _ | old
      · rw [hget] at hk
        simp at hk
      · have hred : cascadeTree g excl checked dirPath (FsTree.dir nm kids) items =
            cascadeForest g excl checked (pathJoin dirPath nm) kids
              (mapSet items (pathJoin dirPath nm) (old.updateCheckState checked)) := by
          simp [cascadeTree, hx, hget]
        rw [hred, mapSet_upd_eq_setWalked_single items _ old checked hnd hget]
        have hrec := cascadeForest_known g excl checked (pathJoin dirPath nm) kids
          (setWalked [pathJoin dirPath nm] checked items)
          (by rw [setWalked_keys]; exact hnd)
          (by
            intro w hw
            rw [setWalked_get]
            have := hknown w (by rw [hwalk]; exact List.mem_cons_of_mem _ hw)
            rcases hg2 : mapGet items w.path with _ | it
            · rw [hg2] at this
              simp at this
            · simp)
          (by
            intro w hw hf
            exact hgate w (by rw [hwalk]; exact List.mem_cons_of_mem _ hw) hf)
        rw [hrec, setWalked_setWalked, hwalk]
        simp
theorem cascadeForest_known (g : GateEnv) (excl : List String) (checked : Bool) :
    ∀ (dirPath : String) (f : FsForest) (items : Items),
    (items.map Prod.fst).Nodup →
    (∀ w ∈ walkForest excl dirPath f, (mapGet items w.path).isSome) →
    (∀ w ∈ walkForest excl dirPath f, w.isDir = false →
      gateCancels g w.sizeKB w.path = false) →
    cascadeForest g excl checked dirPath f items =
      (setWalked ((walkForest excl dirPath f).map WEntry.path) checked items, false)
  | dirPath, FsForest.nil, items => by
    intro _ _ _
    simp [cascadeForest, walkForest, setWalked_nil]
  | dirPath, FsForest.cons e rest, items => by
    intro hnd hknown hgate
    have hwalk : walkForest excl dirPath (FsForest.cons e rest) =
        walkTree excl dirPath e ++ walkForest excl dirPath rest := rfl
    have ht := cascadeTree_known g excl checked dirPath e items hnd
      (fun w hw => hknown w (by rw [hwalk]; exact List.mem_append_left _ hw))
      (fun w hw hf => hgate w (by rw [hwalk]; exact List.mem_append_left _ hw) hf)
    have hred : cascadeForest g excl checked dirPath (FsForest.cons e rest) items =
        ((cascadeForest g excl checked dirPath rest
            (cascadeTree g excl checked dirPath e items).1).1,
          (cascadeTree g excl checked dirPath e items).2 ||
          (cascadeForest g excl checked dirPath rest
            (cascadeTree g excl checked dirPath e items).1).2) := rfl
    rw [hred, ht]
    have hrest := cascadeForest_known g excl checked dirPath rest
      (setWalked ((walkTree excl dirPath e).map WEntry.path) checked items)
      (by rw [setWalked_keys]; exact hnd)
      (by
        intro w hw
        rw [setWalked_get]
        have := hknown w (by rw [hwalk]; exact List.mem_append_right _ hw)
        rcases hg2 : mapGet items w.path with _ | it
        · rw [hg2] at this
          simp at this
        · simp)
      (fun w hw hf => hgate w (by rw [hwalk]; exact List.mem_append_right _ hw) hf)
    rw [hrest, setWalked_setWalked, hwalk]
    simp
end

theorem toggleCheck_folder_items (g : GateEnv) (excl : List String) (sz : Nat)
    (subtree : FsForest) (it0 : FileItem) (m : Items) (hdir : it0.isDirectory = true) :
    (toggleCheck g excl sz subtree it0 m).items =
      mapSet (cascadeForest g excl (!it0.isChecked) it0.filePath subtree m).1
        it0.filePath (it0.updateCheckState (!it0.isChecked)) := by
  have hctx : it0.contextValue = "folder" := by
    simp [FileItem.contextValue, hdir]
  have hne : ¬ ((!it0.isChecked) = it0.isChecked) := by
    cases h : it0.isChecked <;> simp
  simp [toggleCheck, hctx, hne]

theorem toggleCheck_file_items (g : GateEnv) (excl : List String) (sz : Nat)
    (subtree : FsForest) (it0 : FileItem) (m : Items) (hfile : it0.isDirectory = false)
    (hgate : gateCancels g sz it0.filePath = false) :
    (toggleCheck g excl sz subtree it0 m).items =
      mapSet m it0.filePath (it0.updateCheckState (!it0.isChecked)) := by
  have hctx : it0.contextValue = "file" := by
    simp [FileItem.contextValue, hfile]
  have hne : ¬ ((!it0.isChecked) = it0.isChecked) := by
    cases h : it0.isChecked <;> simp
  simp [toggleCheck, hctx, hne, hgate]

/-! ## Claim theorems: double toggle -/

/-- C9 (amended): toggling a node twice through `toggleCheck` with the size
gate accepting restores the node's own checked state always; the items map
- and with it the settled published aggregate for any environment - is
restored when the node is a file, and when the node is a directory all of
whose walked descendants are already known in the map with checked state
equal to the directory's own.  (A directory with mixed descendant states
does not restore the aggregate: the counterexample forces this
restriction.) -/
theorem claim_C9_double_toggle_amended (g : GateEnv) (excl : List String) (sz : Nat)
    (subtree : FsForest) (item : FileItem) (items : Items)
    (hmem : mapGet items item.filePath = some item)
    (hnd : (items.map Prod.fst).Nodup)
    (hgate : gateCancels g sz item.filePath = false)
    (hcase : item.isDirectory = false ∨
      (item.isDirectory = true ∧
        (∀ w ∈ walkForest excl item.filePath subtree, w.isDir = false →
          gateCancels g w.sizeKB w.path = false) ∧
        (∀ w ∈ walkForest excl item.filePath subtree,
          ∃ it2, mapGet items w.path = some it2 ∧ it2.isChecked = item.isChecked))) :
    (toggleCheck g excl sz subtree (item.updateCheckState (!item.isChecked))
        (toggleCheck g excl sz subtree item items).items).items = items ∧
    mapGet (toggleCheck g excl sz subtree (item.updateCheckState (!item.isChecked))
        (toggleCheck g excl sz subtree item items).items).items item.filePath =
      some item ∧
    (∀ env : Env, runTotal env (toggleCheck g excl sz subtree
        (item.updateCheckState (!item.isChecked))
        (toggleCheck g excl sz subtree item items).items).items =
      runTotal env items) := by
  have hitem2 : (item.updateCheckState (!item.isChecked)).updateCheckState
      (!(item.updateCheckState (!item.isChecked)).isChecked) = item := by
    cases item
    simp [FileItem.updateCheckState]
  suffices hmain : (toggleCheck g excl sz subtree
      (item.updateCheckState (!item.isChecked))
      (toggleCheck g excl sz subtree item items).items).items = items by
    exact ⟨hmain, by rw [hmain]; exact hmem, fun env => by rw [hmain]⟩
  rcases hcase with hfile | ⟨hdir, hgatew, huniform⟩
  · rw [toggleCheck_file_items g excl sz subtree _ _
      (by simpa [FileItem.updateCheckState] using hfile)
      (by simpa [FileItem.updateCheckState] using hgate)]
    rw [toggleCheck_file_items g excl sz subtree item items hfile hgate]
    show mapSet (mapSet items item.filePath _) (item.updateCheckState (!item.isChecked)).filePath _ = items
    have hfp : (item.updateCheckState (!item.isChecked)).filePath = item.filePath := rfl
    rw [hfp, hitem2, mapSet_mapSet_same]
    exact mapSet_self items item.filePath item hnd hmem
  · have hknown : ∀ w ∈ walkForest excl item.filePath subtree,
        (mapGet items w.path).isSome := by
      intro w hw
      obtain ⟨it2, hit2, _⟩ := huniform w hw
      simp [hit2]
    have hB1 := cascadeForest_known g excl (!item.isChecked) item.filePath subtree
      items hnd hknown hgatew
    rw [toggleCheck_folder_items g excl sz subtree item items hdir, hB1]
    have hfp_set : mapGet (setWalked ((walkForest excl item.filePath subtree).map
        WEntry.path) (!item.isChecked) items) item.filePath =
        some (if ((walkForest excl item.filePath subtree).map WEntry.path).contains
            item.filePath then item.updateCheckState (!item.isChecked) else item) := by
      rw [setWalked_get, hmem]
      rfl
    have hfp_notin : ¬ (((walkForest excl item.filePath subtree).map
        WEntry.path).contains item.filePath = true) := by
      intro hc
      rw [List.contains_eq_any_beq] at hc
      simp only [List.any_eq_true, beq_iff_eq, List.mem_map] at hc
      obtain ⟨p, ⟨w, hw, rfl⟩, hpe⟩ := hc
      have := walkForest_path_long excl item.filePath subtree w hw
      rw [hpe] at this
      omega
    rw [if_neg hfp_notin] at hfp_set
    set ps := (walkForest excl item.filePath subtree).map WEntry.path with hps
    set itemsA := mapSet (setWalked ps (!item.isChecked) items) item.filePath
      (item.updateCheckState (!item.isChecked)) with hA
    have hkeysA : itemsA.map Prod.fst = items.map Prod.fst := by
      rw [hA, mapSet_keys_present _ _ _ (by simp [hfp_set]), setWalked_keys]
    have hndA : (itemsA.map Prod.fst).Nodup := by
      rw [hkeysA]
      exact hnd
    have hgetA : ∀ k, mapGet itemsA k =
        if k = item.filePath then some (item.updateCheckState (!item.isChecked))
        else (mapGet items k).map
          (fun it => if ps.contains k then it.updateCheckState (!item.isChecked) else it) := by
      intro k
      rw [hA, mapGet_set]
      by_cases hk : k = item.filePath
      · simp [hk]
      · rw [if_neg hk, if_neg hk, setWalked_get]
    have hknownA : ∀ w ∈ walkForest excl item.filePath subtree,
        (mapGet itemsA w.path).isSome := by
      intro w hw
      rw [hgetA]
      by_cases hk : w.path = item.filePath
      · simp [hk]
      · rw [if_neg hk]
        obtain ⟨it2, hit2, _⟩ := huniform w hw
        simp [hit2]
    have hB2 := cascadeForest_known g excl
      (!(item.updateCheckState (!item.isChecked)).isChecked) item.filePath subtree
      itemsA hndA hknownA hgatew
    rw [toggleCheck_folder_items g excl sz subtree _ itemsA
      (by simpa [FileItem.updateCheckState] using hdir)]
    show mapSet (cascadeForest g excl _ (item.updateCheckState (!item.isChecked)).filePath
      subtree itemsA).1 _ _ = items
    have hfp2 : (item.updateCheckState (!item.isChecked)).filePath = item.filePath := rfl
    rw [hfp2, hB2, hitem2]
    have hnotnot : (!(item.updateCheckState (!item.isChecked)).isChecked) =
        item.isChecked := by
      cases h : item.isChecked <;> simp [FileItem.updateCheckState, h]
    rw [hnotnot]
    apply assoc_ext
    · rw [mapSet_keys_present, setWalked_keys, hkeysA]
      rw [setWalked_get]
      rw [hgetA]
      simp
    · exact hnd
    · intro k
      rw [mapGet_set]
      by_cases hk : k = item.filePath
      · rw [if_pos hk, hk, hmem]
      · rw [if_neg hk, setWalked_get, hgetA, if_neg hk]
        rw [Option.map_map]
        cases hc : ps.contains k
        · rcases mapGet items k with _ | it <;> rfl
        · rcases hq : mapGet items k with _ | it
          · rfl
          · have hkps : k ∈ ps := by
              rw [List.contains_eq_any_beq] at hc
              simp only [List.any_eq_true, beq_iff_eq] at hc
              obtain ⟨p, hp, rfl⟩ := hc
              exact hp
            have hchk2 : it.isChecked = item.isChecked := by
              obtain ⟨w, hw, hwp⟩ := List.mem_map.mp (hps ▸ hkps)
              obtain ⟨it2, hit2, hchk⟩ := huniform w hw
              rw [hwp, hq] at hit2
              injection hit2 with h
              rw [h]
              exact hchk
            show some ((it.updateCheckState (!item.isChecked)).updateCheckState
              item.isChecked) = some it
            rw [updateCheckState_twice, ← hchk2, updateCheckState_self]

/-- C9 counterexample: double-toggling a directory whose descendant checked
states are mixed does not restore the aggregate.  The unchecked directory
"r/d" of `itemsC9` has a checked child worth 5 tokens; toggling the
directory on and then off restores the directory's own state but forces the
child unchecked, so the settled published total drops from 5 to 0 and the
map differs from the original. -/
theorem claim_C9_counterexample_mixed_directory :
    runTotal envC9 itemsC9 = 5 ∧
    mapGet (toggleCheck gC9 [] 0 treeC9 (dirC9.updateCheckState (!dirC9.isChecked))
        (toggleCheck gC9 [] 0 treeC9 dirC9 itemsC9).items).items "r/d" = some dirC9 ∧
    runTotal envC9 (toggleCheck gC9 [] 0 treeC9
        (dirC9.updateCheckState (!dirC9.isChecked))
        (toggleCheck gC9 [] 0 treeC9 dirC9 itemsC9).items).items = 0 ∧
    (toggleCheck gC9 [] 0 treeC9 (dirC9.updateCheckState (!dirC9.isChecked))
        (toggleCheck gC9 [] 0 treeC9 dirC9 itemsC9).items).items ≠ itemsC9 := by
  decide

/-- C9 witness: the amended double-toggle theorem applied to the concrete
checked file `fileC9` in the one-file map `itemsC9w`. -/
theorem claim_C9_double_toggle_amended_witness :
    (toggleCheck gC9 [] 0 FsForest.nil (fileC9.updateCheckState (!fileC9.isChecked))
        (toggleCheck gC9 [] 0 FsForest.nil fileC9 itemsC9w).items).items = itemsC9w :=
  (claim_C9_double_toggle_amended gC9 [] 0 FsForest.nil fileC9 itemsC9w
    (by decide) (by decide) (by decide) (Or.inl (by decide))).1
